import Mathlib

/-!
# Verification of the `peter-ai` long-term memory subsystem

Shallow embedding of `src/memoryManager.ts` (the `MemoryManager` class) and
proofs about the claims of the specification.

Modelling conventions:
* JavaScript numbers are modelled as real numbers (`ℝ`) for embedding
  components, similarities and importance scores, and as integers (`Int`)
  for `Date.now()` timestamps.
* Each external collaborator (OpenAI embeddings / chat completions, the
  Pinecone vector store) is a field of an `Env` record returning
  `Except ServiceError _`; a rejected promise is `.error`.
* `JSON.parse` of an oracle response is modelled by an
  `Option`-valued parse outcome carried in the environment: `some d` means
  the response parsed as the expected structure `d`, `none` means
  `JSON.parse` threw (the `catch` branch of the source).
* The Pinecone index (metric `cosine`, see `setup-pinecone.ts`) is modelled
  as a list of records; `query` returns the `topK` stored records that
  match the metadata filter, ordered by descending cosine similarity to the
  query vector, and `upsert` replaces the record with the same id or
  appends a fresh one.
* `Array.prototype.sort` is modelled as insertion sort, which (like the
  engine's sort) emits adjacent elements only in comparator-compatible
  order.
* Methods that the claims quantify over external-call counts
  (`addMemory`, `editMemory`, `consolidateThreadMemories`) additionally
  return the number of external service calls they performed.
-/

namespace PeterAI

/-- An error thrown inside a `MemoryManager` method: a rejected external
call (`EmbeddingError`, `GenerationError`, a vector-store rejection), or
the `TypeError` JavaScript raises when a property of a non-object oracle
value is accessed (for example `null.isSalient`). -/
inductive ServiceError
  | embedding
  | generation
  | vectorStore
  | typeError
  deriving DecidableEq, Repr

/-- A successfully `JSON.parse`d oracle response, as far as the manager's
property accesses can distinguish it: JS `null` (any property access
raises a `TypeError`), some other value that does not carry the expected
fields (a missing property reads as `undefined`, which is falsy), or an
object carrying the expected fields `α`.  The source performs no shape
validation: whatever `JSON.parse` returns is handed back verbatim. -/
inductive JsonValue (α : Type)
  | null : JsonValue α
  | other : JsonValue α
  | obj : α → JsonValue α
  deriving DecidableEq, Repr

/-- The JS truthiness of reading the decision field (`isSalient` /
`update`) off a parsed oracle value: on `null` the access raises a
`TypeError`; on a value without the field it reads `undefined`, which is
falsy; on an object it is the field itself. -/
def JsonValue.truthyField {α : Type} (f : α → Bool) :
    JsonValue α → Except ServiceError Bool
  | .null => .error .typeError
  | .other => .ok false
  | .obj d => .ok (f d)

/-- The JS read of a string payload field (`summary` / `updatedSummary`)
off a parsed oracle value.  The manager reads these fields only under a
truthy decision field, which non-objects never produce, so the `""`
stand-in for `undefined` on the first two constructors is dead. -/
def JsonValue.stringField {α : Type} (f : α → String) :
    JsonValue α → String
  | .null => ""
  | .other => ""
  | .obj d => f d

/-- Result of the salience classifier oracle
(`{isSalient: boolean, summary: string}`). -/
structure SalientDecision where
  isSalient : Bool
  summary : String
  deriving DecidableEq, Repr

/-- Result of the conflict adjudication oracle
(`{update: boolean, updatedSummary: string}`). -/
structure UpdateDecision where
  update : Bool
  updatedSummary : String
  deriving DecidableEq, Repr

/-- The `metadata` object stored with each Pinecone record by
`memoryManager.ts`.  Fields that some writers omit (`salient`, `tags`,
`relations`) are `Option`s; `none` means the field is absent from the
upserted metadata. -/
structure MemoryMetadata where
  content : String
  timestamp : Int
  type : String
  summary : String
  importance : ℝ
  lastAccessed : Int
  version : Nat
  salient : Option Bool
  tags : Option (List String)
  relations : Option (List String)

/-- A record held by the vector store: `{id, values, metadata}`. -/
structure StoredRecord where
  id : String
  values : List ℝ
  metadata : MemoryMetadata

/-- The state of the Pinecone namespace. -/
abbrev Store := List StoredRecord

/-- The external world as seen by `MemoryManager`: embedding service,
oracle prompts (each returning the parse outcome of the completion),
vector-store availability, the clock, and the uuid generator. -/
structure Env where
  /-- `generateEmbedding`: the OpenAI embeddings call. -/
  embed : String → Except ServiceError (List ℝ)
  /-- `generateSummary`: the summarization completion. -/
  summaryResponse : String → Except ServiceError String
  /-- `evaluateImportance`: the importance-scoring completion
  (already `parseFloat`ed). -/
  importanceResponse : String → Except ServiceError ℝ
  /-- `evaluateSalientMemory`'s completion: `.ok (some v)` = `JSON.parse`
  succeeded and produced the value `v`, `.ok none` = `JSON.parse` threw
  (the `catch` branch). -/
  salientResponse : String → Except ServiceError (Option (JsonValue SalientDecision))
  /-- `evaluateMemoryUpdate`'s completion for (newContent,
  existingContent), with the same parse-outcome convention. -/
  updateResponse :
    String → String → Except ServiceError (Option (JsonValue UpdateDecision))
  /-- Whether a vector-store `query` call succeeds. -/
  queryOk : Except ServiceError Unit
  /-- Whether a vector-store `upsert` call succeeds. -/
  upsertOk : Except ServiceError Unit
  /-- `Date.now()`. -/
  now : Int
  /-- `uuidv4()`. -/
  freshId : String

/-- Model of `evaluateSalientMemory`: run the classifier completion and
`JSON.parse` it.  On a successful parse the value is returned verbatim —
the source performs no shape validation; only when `JSON.parse` throws
does the `catch` branch return the literal
`{ isSalient: false, summary: "" }`. -/
def evaluateSalientMemory (env : Env) (content : String) :
    Except ServiceError (JsonValue SalientDecision) :=
  (env.salientResponse content).map (fun parsed => parsed.getD (.obj ⟨false, ""⟩))

/-- Model of `evaluateMemoryUpdate`: run the adjudicator completion and
`JSON.parse` it.  On a successful parse the value is returned verbatim;
only when `JSON.parse` throws does the `catch` branch return the literal
`{ update: false, updatedSummary: "" }`. -/
def evaluateMemoryUpdate (env : Env) (newContent existingContent : String) :
    Except ServiceError (JsonValue UpdateDecision) :=
  (env.updateResponse newContent existingContent).map
    (fun parsed => parsed.getD (.obj ⟨false, ""⟩))

/-- JavaScript `text.split(':')` over the character sequence: always
returns a non-empty list of segments. -/
def splitOnColon : List Char → List (List Char)
  | [] => [[]]
  | c :: rest =>
    let r := splitOnColon rest
    if c = ':' then [] :: r
    else
      match r with
      | [] => [[c]]
      | seg :: segs => (c :: seg) :: segs

/-- JavaScript `String.prototype.trim`: strip whitespace from both ends. -/
def trimChars (l : List Char) : List Char :=
  ((l.dropWhile Char.isWhitespace).reverse.dropWhile Char.isWhitespace).reverse

/-- JavaScript `String.prototype.toLowerCase` (ASCII-adequate model). -/
def lowerChars (l : List Char) : List Char := l.map Char.toLower

/-- The fixed greeting set of `isTrivial`. -/
def greetings : List (List Char) :=
  ["hey".data, "hi".data, "hello".data, "good morning".data,
   "good evening".data, "greetings".data]

/-- The function `isTrivial`, transcribed from the source:
`const message = text.split(':').pop()?.trim().toLowerCase() || text;`
(`split` always returns a non-empty array, so `pop` yields the segment
after the last colon — the whole text when there is no colon; the
`|| text` fallback replaces an empty normalized segment by the raw text),
then membership in the greeting set, then the length-5 threshold. -/
def isTrivial (text : String) : Bool :=
  let message :=
    let popped := lowerChars (trimChars ((splitOnColon text.data).getLastD text.data))
    if popped = [] then text.data else popped
  if greetings.contains message then true
  else if message.length < 5 then true
  else false

/-- The triviality policy exactly as the claim words it: strip a leading
`speaker:` prefix (the text up to and including the first colon, when one
is present), lowercase and trim, then test the greeting set and the
length-5 threshold. -/
def isTrivialClaim (text : String) : Bool :=
  let rest :=
    match splitOnColon text.data with
    | [] => text.data
    | [whole] => whole
    | _ :: tail => List.intercalate [':'] tail
  let message := lowerChars (trimChars rest)
  greetings.contains message || decide (message.length < 5)

/-- The amended triviality policy: classify from the segment after the
*last* colon (the whole text when there is no colon), trimmed and
lowercased, falling back to the raw text when that segment normalizes to
the empty string; trivial iff that message is a greeting token or shorter
than 5 characters. -/
def isTrivialAmended (text : String) : Bool :=
  let lastSegment := (splitOnColon text.data).reverse.headD text.data
  let normalized := lowerChars (trimChars lastSegment)
  let message := if normalized = [] then text.data else normalized
  greetings.contains message || decide (message.length < 5)

/-! ## Cosine similarity -/

/-- JavaScript `vecA.reduce((sum, a, i) => sum + a * (vecB[i] || 0), 0)`: the sum of
`vecA[i] * vecB[i]` over `vecA`'s indices, a missing `vecB` entry
contributing `0`. -/
noncomputable def dotProduct : List ℝ → List ℝ → ℝ
  | [], _ => 0
  | a :: as, [] => a * 0 + dotProduct as []
  | a :: as, b :: bs => a * b + dotProduct as bs

/-- JavaScript `vec.reduce((sum, a) => sum + a * a, 0)`. -/
noncomputable def sumSquares : List ℝ → ℝ
  | [] => 0
  | a :: as => a * a + sumSquares as

open Classical in
/-- The function `calculateCosineSimilarity` from the source: dot product over the
norms, `0` when either norm is `0`. -/
noncomputable def calculateCosineSimilarity (vecA vecB : List ℝ) : ℝ :=
  let dot := dotProduct vecA vecB
  let normA := Real.sqrt (sumSquares vecA)
  let normB := Real.sqrt (sumSquares vecB)
  if normA = 0 ∨ normB = 0 then 0 else dot / (normA * normB)

theorem dotProduct_nil_right : ∀ (l : List ℝ), dotProduct l [] = 0
  | [] => rfl
  | a :: as => by rw [dotProduct, dotProduct_nil_right as]; ring

theorem dotProduct_comm : ∀ (l₁ l₂ : List ℝ), dotProduct l₁ l₂ = dotProduct l₂ l₁
  | [], l₂ => by rw [dotProduct.eq_def]; cases l₂ <;> simp [dotProduct, dotProduct_nil_right]
  | a :: as, [] => by simp [dotProduct, dotProduct_nil_right]
  | a :: as, b :: bs => by rw [dotProduct, dotProduct, dotProduct_comm as bs]; ring

/-- Cosine similarity as computed by the source is symmetric. -/
theorem calculateCosineSimilarity_comm (vecA vecB : List ℝ) :
    calculateCosineSimilarity vecA vecB = calculateCosineSimilarity vecB vecA := by
  unfold calculateCosineSimilarity
  rw [dotProduct_comm]
  by_cases hA : Real.sqrt (sumSquares vecA) = 0 <;>
    by_cases hB : Real.sqrt (sumSquares vecB) = 0 <;>
      simp [hA, hB, mul_comm]

/-- Unit-norm vectors: the similarity is just the dot product. -/
theorem calculateCosineSimilarity_of_unit {vecA vecB : List ℝ}
    (hA : sumSquares vecA = 1) (hB : sumSquares vecB = 1) :
    calculateCosineSimilarity vecA vecB = dotProduct vecA vecB := by
  unfold calculateCosineSimilarity
  rw [hA, hB, Real.sqrt_one]
  norm_num

/-! ## The model of `Array.prototype.sort` -/

/-- Insert `a` into `l`, keeping `a` before the first element `b` with
`le a b`. -/
def insertSorted {α : Type} (le : α → α → Bool) (a : α) : List α → List α
  | [] => [a]
  | b :: l => if le a b then a :: b :: l else b :: insertSorted le a l

/-- The model of `array.sort(cmp)`: insertion sort with
`le x y := cmp(x, y) ≤ 0` (`x` may be placed before `y`). -/
def sortByCmp {α : Type} (le : α → α → Bool) (l : List α) : List α :=
  l.foldr (insertSorted le) []

theorem mem_insertSorted {α : Type} (le : α → α → Bool) (a x : α) :
    ∀ (l : List α), (x ∈ insertSorted le a l ↔ x = a ∨ x ∈ l)
  | [] => by simp [insertSorted]
  | b :: l => by
    rw [insertSorted]
    by_cases h : le a b
    · simp [h]
    · have h' : le a b = false := by simpa using h
      simp [h', mem_insertSorted le a x l]
      tauto

theorem mem_sortByCmp {α : Type} (le : α → α → Bool) (x : α) :
    ∀ (l : List α), (x ∈ sortByCmp le l ↔ x ∈ l)
  | [] => Iff.rfl
  | b :: l => by
    show x ∈ insertSorted le b (sortByCmp le l) ↔ _
    rw [mem_insertSorted, mem_sortByCmp le x l]
    simp

theorem length_sortByCmp {α : Type} (le : α → α → Bool) :
    ∀ (l : List α), (sortByCmp le l).length = l.length
  | [] => rfl
  | b :: l => by
    show (insertSorted le b (sortByCmp le l)).length = _
    have : ∀ (m : List α), (insertSorted le b m).length = m.length + 1 := by
      intro m
      induction m with
      | nil => rfl
      | cons c m ih =>
        rw [insertSorted]
        by_cases h : le b c <;> simp [h, ih]
    rw [this, length_sortByCmp le l, List.length_cons]

theorem head?_insertSorted {α : Type} (le : α → α → Bool) (a : α) (l : List α) :
    (insertSorted le a l).head? = some a ∨ (insertSorted le a l).head? = l.head? := by
  cases l with
  | nil => left; rfl
  | cons b l =>
    rw [insertSorted]
    by_cases h : le a b
    · left; simp [h]
    · right; simp [h]

/-- Adjacent elements of the sorted output are always in comparator-
compatible order, provided the comparator is total — transitivity is not
needed. -/
theorem chain'_insertSorted {α : Type} (le : α → α → Bool)
    (htot : ∀ a b, le a b = true ∨ le b a = true) (a : α) :
    ∀ (l : List α), l.Chain' (fun x y => le x y = true) →
      (insertSorted le a l).Chain' (fun x y => le x y = true)
  | [], _ => by simp [insertSorted]
  | b :: l, hl => by
    rw [insertSorted]
    obtain ⟨hbl, hl'⟩ := List.chain'_cons'.mp hl
    by_cases h : le a b
    · simp only [h, if_true]
      exact List.chain'_cons'.mpr ⟨by simp [h], hl⟩
    · simp only [h, if_false]
      have hba : le b a = true := (htot a b).resolve_left (by simpa using h)
      refine List.chain'_cons'.mpr ⟨?_, chain'_insertSorted le htot a l hl'⟩
      intro y hy
      rcases head?_insertSorted le a l with hh | hh
      · rw [hh] at hy; cases hy; exact hba
      · rw [hh] at hy; exact hbl y hy

theorem chain'_sortByCmp {α : Type} (le : α → α → Bool)
    (htot : ∀ a b, le a b = true ∨ le b a = true) :
    ∀ (l : List α), (sortByCmp le l).Chain' (fun x y => le x y = true)
  | [] => List.chain'_nil
  | b :: l => chain'_insertSorted le htot b _ (chain'_sortByCmp le htot l)

/-- A prefix of a `Chain'` list is a `Chain'` list. -/
theorem chain'_take {α : Type} {R : α → α → Prop} :
    ∀ (l : List α), l.Chain' R → ∀ (n : Nat), (l.take n).Chain' R
  | [], _, _ => by simp
  | _ :: _, h, 0 => by simp
  | a :: l, h, n + 1 => by
    rw [List.take_succ_cons]
    obtain ⟨hal, hl⟩ := List.chain'_cons'.mp h
    refine List.chain'_cons'.mpr ⟨?_, chain'_take l hl n⟩
    intro y hy
    apply hal
    cases l with
    | nil => simp at hy
    | cons b l =>
      cases n with
      | zero => simp at hy
      | succ n => simpa using hy

/-- For a total and transitive comparator, the head of the sorted list
dominates every input element. -/
theorem sortByCmp_head_le {α : Type} (le : α → α → Bool)
    (htot : ∀ a b, le a b = true ∨ le b a = true)
    (htrans : ∀ a b c, le a b = true → le b c = true → le a c = true)
    (l : List α) (h : α) (t : List α) (heq : sortByCmp le l = h :: t) :
    ∀ x ∈ l, le h x = true := by
  intro x hx
  have hchain : (h :: t).Chain' (fun x y => le x y = true) := by
    rw [← heq]; exact chain'_sortByCmp le htot l
  haveI : IsTrans α (fun x y => le x y = true) := ⟨fun a b c => htrans a b c⟩
  have hpair := (List.chain'_iff_pairwise).mp hchain
  have hx' : x ∈ h :: t := by rw [← heq, mem_sortByCmp]; exact hx
  rcases List.mem_cons.mp hx' with rfl | hxt
  · exact (htot x x).elim id id
  · exact (List.pairwise_cons.mp hpair).1 x hxt

/-! ## The vector store -/

/-- The `{ salient: true }` metadata filter. -/
def salientFilter (r : StoredRecord) : Bool := r.metadata.salient = some true

/-- Pinecone match ordering: `a` before `b` when `a`'s cosine similarity
to the query vector is at least `b`'s (the index metric is `cosine`, see
`setup-pinecone.ts`). -/
noncomputable def bySimilarity (v : List ℝ) (a b : StoredRecord) : Bool :=
  decide (calculateCosineSimilarity v b.values ≤ calculateCosineSimilarity v a.values)

/-- Model of `index.query({vector, topK, filter, includeMetadata})`: the `topK`
records matching the filter, by descending cosine similarity to the query
vector; matches carry their metadata and stored vector values. -/
noncomputable def queryStore (s : Store) (v : List ℝ) (topK : Nat)
    (filter : StoredRecord → Bool) : Store :=
  (sortByCmp (bySimilarity v) (s.filter filter)).take topK

/-- Model of `index.upsert([record])`: replace the record with the same id, or
append a new one. -/
def upsert (s : Store) (r : StoredRecord) : Store :=
  if s.any (fun x => x.id = r.id) then
    s.map (fun x => if x.id = r.id then r else x)
  else s ++ [r]

/-! ## MemoryManager methods -/

/-- Model of `editMemory(memoryId, newContent, newSummary?, isSalient = false)`:
re-embed, take the provided summary unless it is missing or empty
(JavaScript `newSummary || await this.generateSummary(newContent)`),
re-score importance, and upsert a full replacement record under the same
id with `timestamp` and `lastAccessed` set to now, `type` set to
`"conversation"`, no `tags`/`relations`, and the `salient` field present
only when `isSalient` is true.  The second component counts external
service calls. -/
noncomputable def editMemory (env : Env) (s : Store) (memoryId newContent : String)
    (newSummary : Option String) (isSalient : Bool) :
    Except ServiceError (Store × Nat) := do
  let updatedEmbedding ← env.embed newContent
  let provided := newSummary.getD ""
  let (summary, summaryCalls) ←
    if provided = "" then (env.summaryResponse newContent).map (fun x => (x, 1))
    else pure (provided, 0)
  let importance ← env.importanceResponse newContent
  let record : StoredRecord :=
    { id := memoryId
      values := updatedEmbedding
      metadata :=
        { content := newContent
          timestamp := env.now
          type := "conversation"
          summary := summary
          importance := importance
          lastAccessed := env.now
          version := 1
          salient := if isSalient then some true else none
          tags := none
          relations := none } }
  let _ ← env.upsertOk
  pure (upsert s record, 3 + summaryCalls)

/-- The `Create new memory` tail of `addMemory`: the ternary
`salientDecision.isSalient ? salientDecision.summary : await
this.generateSummary(content)` re-reads the decision property (a
`TypeError` on `null`, falsy `undefined` on a non-conforming value), so
the summary is the classifier's extracted fact when the decision was
truthy and a fresh `generateSummary` completion otherwise; the record is
created under a fresh id with `salient: true` always set. -/
noncomputable def addMemoryCreate (env : Env) (s : Store) (content ty : String)
    (tags relatedIds : List String)
    (salientDecision : JsonValue SalientDecision)
    (embedding : List ℝ) (importance : ℝ) : Except ServiceError (Store × Nat) := do
  let isSal ← salientDecision.truthyField SalientDecision.isSalient
  let (summary, summaryCalls) ←
    if isSal then pure (salientDecision.stringField SalientDecision.summary, 0)
    else (env.summaryResponse content).map (fun x => (x, 1))
  let record : StoredRecord :=
    { id := env.freshId
      values := embedding
      metadata :=
        { content := content
          timestamp := env.now
          type := ty
          summary := summary
          importance := importance
          lastAccessed := env.now
          version := 1
          salient := some true
          tags := some tags
          relations := some relatedIds } }
  let _ ← env.upsertOk
  pure (upsert s record, summaryCalls + 1)

/-- Model of `addMemory(content, type, tags = [], relatedIds = [])`, the full
pipeline: triviality gate, salience gate, embedding + importance, the
salient duplicate probe (`topK: 1`, `filter: { salient: true }`),
conflict adjudication with in-place update or skip, otherwise creation.
The gates read `salientDecision.isSalient` and `decision.update` with JS
property-access semantics (`truthyField`), so a `null` parse raises a
`TypeError` here.  The surrounding `try/catch` logs and rethrows, so a
failing external call — or that `TypeError` — surfaces as `.error`.  The
second component counts external service calls. -/
noncomputable def addMemory (env : Env) (s : Store) (content ty : String)
    (tags relatedIds : List String) : Except ServiceError (Store × Nat) := do
  if isTrivial content then
    pure (s, 0)
  else
    let salientDecision ← evaluateSalientMemory env content
    let isSal ← salientDecision.truthyField SalientDecision.isSalient
    if !isSal && ty != "important" then
      pure (s, 1)
    else
      let embedding ← env.embed content
      let importance ← env.importanceResponse content
      if isSal then do
        let _ ← env.queryOk
        match queryStore s embedding 1 salientFilter with
        | existingMemory :: _ =>
          let similarity := calculateCosineSimilarity embedding existingMemory.values
          if similarity > 0.8 then do
            let decision ← evaluateMemoryUpdate env content existingMemory.metadata.content
            let upd ← decision.truthyField UpdateDecision.update
            if upd then do
              let (s', editCalls) ← editMemory env s existingMemory.id content
                (some (decision.stringField UpdateDecision.updatedSummary)) true
              pure (s', 5 + editCalls)
            else
              pure (s, 5)
          else do
            let (s', createCalls) ← addMemoryCreate env s content ty tags relatedIds
              salientDecision embedding importance
            pure (s', 4 + createCalls)
        | [] => do
          let (s', createCalls) ← addMemoryCreate env s content ty tags relatedIds
            salientDecision embedding importance
          pure (s', 4 + createCalls)
      else do
        let (s', createCalls) ← addMemoryCreate env s content ty tags relatedIds
          salientDecision embedding importance
        pure (s', 3 + createCalls)

/-- The comparator of `getRelatedMemories`' local re-sort, as the boolean
"`a` may come before `b`" relation (comparator value `≤ 0`): similarity
descending when the two similarities differ by more than `0.1`, otherwise
`lastAccessed` descending. -/
noncomputable def relatedLe (queryEmbedding : List ℝ) (a b : StoredRecord) : Bool :=
  let simA := calculateCosineSimilarity queryEmbedding a.values
  let simB := calculateCosineSimilarity queryEmbedding b.values
  if |simA - simB| > 0.1 then decide (simB - simA ≤ 0)
  else decide ((b.metadata.lastAccessed : ℝ) - (a.metadata.lastAccessed : ℝ) ≤ 0)

/-- The body of `getRelatedMemories` before its `catch`: embed the query, fetch up to
`limit` salient matches, re-sort locally, slice to `limit`. -/
noncomputable def getRelatedMemoriesCore (env : Env) (s : Store) (query : String)
    (limit : Nat) : Except ServiceError (List StoredRecord) := do
  let queryEmbedding ← env.embed query
  let _ ← env.queryOk
  let memories := queryStore s queryEmbedding limit salientFilter
  pure ((sortByCmp (relatedLe queryEmbedding) memories).take limit)

/-- Model of `getRelatedMemories(query, limit = 5)`: the `catch` swallows any
error and returns the empty list. -/
noncomputable def getRelatedMemories (env : Env) (s : Store) (query : String)
    (limit : Nat) : List StoredRecord :=
  match getRelatedMemoriesCore env s query limit with
  | .ok memories => memories
  | .error _ => []

/-- The `lastAccessed`-descending comparator of the unranked read paths
(`b.metadata.lastAccessed - a.metadata.lastAccessed ≤ 0`). -/
def byLastAccessed (a b : StoredRecord) : Bool :=
  decide (b.metadata.lastAccessed ≤ a.metadata.lastAccessed)

/-- The body of `getMemoriesByFilter` before its `catch`: `topK: limit * 2` with the
caller's filter, matches mapped with an empty `embedding`, sorted by
`lastAccessed` descending, sliced to `limit`. -/
noncomputable def getMemoriesByFilterCore (env : Env) (s : Store)
    (filter : StoredRecord → Bool) (queryText : String) (limit : Nat) :
    Except ServiceError (List StoredRecord) := do
  let queryEmbedding ← env.embed queryText
  let _ ← env.queryOk
  let found := queryStore s queryEmbedding (limit * 2) filter
  let memories := found.map (fun m => { m with values := [] })
  pure ((sortByCmp byLastAccessed memories).take limit)

/-- Model of `getMemoriesByFilter(filter, queryText, limit = 10)`: the `catch`
swallows any error and returns the empty list. -/
noncomputable def getMemoriesByFilter (env : Env) (s : Store)
    (filter : StoredRecord → Bool) (queryText : String) (limit : Nat) :
    List StoredRecord :=
  match getMemoriesByFilterCore env s filter queryText limit with
  | .ok memories => memories
  | .error _ => []

/-- The body of `searchMemoriesComplex` before its `catch`: `topK: limit`, the filter
passed only when the `filters` object is non-empty (`none` models the
empty object). -/
noncomputable def searchMemoriesComplexCore (env : Env) (s : Store)
    (queryText : String) (filters : Option (StoredRecord → Bool)) (limit : Nat) :
    Except ServiceError (List StoredRecord) := do
  let queryEmbedding ← env.embed queryText
  let _ ← env.queryOk
  let found := queryStore s queryEmbedding limit (filters.getD (fun _ => true))
  let memories := found.map (fun m => { m with values := [] })
  pure ((sortByCmp byLastAccessed memories).take limit)

/-- Model of `searchMemoriesComplex(queryText, filters = {}, limit = 5)`: the
`catch` swallows any error and returns the empty list. -/
noncomputable def searchMemoriesComplex (env : Env) (s : Store)
    (queryText : String) (filters : Option (StoredRecord → Bool)) (limit : Nat) :
    List StoredRecord :=
  match searchMemoriesComplexCore env s queryText filters limit with
  | .ok memories => memories
  | .error _ => []

/-- Model of `consolidateThreadMemories(threadMemories)`: a no-op below 3 inputs,
otherwise one synthetic record with the oracle summary of the
`'\n\n'`-joined contents, importance fixed at `0.7`, a `"consolidated"`
tag, and `relations` holding the source ids. -/
noncomputable def consolidateThreadMemories (env : Env) (s : Store)
    (threadMemories : List StoredRecord) : Except ServiceError (Store × Nat) := do
  if threadMemories.length < 3 then
    pure (s, 0)
  else
    let joined := String.intercalate "\n\n"
      (threadMemories.map (fun m => m.metadata.content))
    let consolidatedContent ← env.summaryResponse joined
    let consolidatedEmbedding ← env.embed consolidatedContent
    let record : StoredRecord :=
      { id := env.freshId
        values := consolidatedEmbedding
        metadata :=
          { content := consolidatedContent
            timestamp := env.now
            type := "conversation_consolidated"
            summary := consolidatedContent.take 200 ++ "..."
            importance := 0.7
            lastAccessed := env.now
            version := 1
            salient := none
            tags := some ["consolidated"]
            relations := some (threadMemories.map (fun m => m.id)) } }
    let _ ← env.upsertOk
    pure (upsert s record, 3)

/-- One iteration of `resolveMemoryConflicts`' nested loop over the pair
`(memA, memB) = (memories[i], memories[j])` with `i < j`: when both
`lastAccessed` values are truthy (nonzero) and `memA`'s is at least
`memB`'s, `memA` is the target, otherwise `memB`; the adjudicator is
asked whether the other member's content should merge into the target's,
and on `update` the target is edited in place (keeping its own content,
taking the merged summary, salient re-asserted). -/
noncomputable def resolvePairStep (env : Env) (s : Store) (memA memB : StoredRecord) :
    Except ServiceError Store := do
  if memA.metadata.lastAccessed ≠ 0 ∧ memB.metadata.lastAccessed ≠ 0 ∧
      memB.metadata.lastAccessed ≤ memA.metadata.lastAccessed then do
    let decision ← evaluateMemoryUpdate env memB.metadata.content memA.metadata.content
    let upd ← decision.truthyField UpdateDecision.update
    if upd then
      (editMemory env s memA.id memA.metadata.content
        (some (decision.stringField UpdateDecision.updatedSummary)) true).map Prod.fst
    else
      pure s
  else do
    let decision ← evaluateMemoryUpdate env memA.metadata.content memB.metadata.content
    let upd ← decision.truthyField UpdateDecision.update
    if upd then
      (editMemory env s memB.id memB.metadata.content
        (some (decision.stringField UpdateDecision.updatedSummary)) true).map Prod.fst
    else
      pure s

/-- The `for i; for j = i + 1` pair enumeration order. -/
def orderedPairs {α : Type} : List α → List (α × α)
  | [] => []
  | a :: l => l.map (fun b => (a, b)) ++ orderedPairs l

/-- The loop of `resolveMemoryConflicts`, threading the store; an error
carries the store as mutated so far (the exception aborts both loops). -/
noncomputable def resolveLoop (env : Env) :
    List (StoredRecord × StoredRecord) → Store → Except (ServiceError × Store) Store
  | [], s => .ok s
  | (a, b) :: rest, s =>
    match resolvePairStep env s a b with
    | .error e => .error (e, s)
    | .ok s' => resolveLoop env rest s'

/-- Model of `resolveMemoryConflicts()`: query up to 5 salient memories with the
zero placeholder vector, sweep every ordered pair of the snapshot; the
`catch` swallows any error, keeping the mutations already performed. -/
noncomputable def resolveMemoryConflicts (env : Env) (s : Store) : Store :=
  match env.queryOk with
  | .error _ => s
  | .ok _ =>
    let memories := queryStore s (List.replicate 1536 0) 5 salientFilter
    match resolveLoop env (orderedPairs memories) s with
    | .ok s' => s'
    | .error (_, s') => s'

/-! ## Store lemmas -/

theorem mem_upsert {s : Store} {r x : StoredRecord} (hx : x ∈ upsert s r) :
    x = r ∨ x ∈ s := by
  unfold upsert at hx
  split at hx
  · obtain ⟨y, hy, hxy⟩ := List.mem_map.mp hx
    by_cases hid : y.id = r.id
    · left; rw [← hxy, if_pos hid]
    · right; rw [← hxy, if_neg hid]; exact hy
  · rcases List.mem_append.mp hx with h1 | h1
    · right; exact h1
    · left; simpa using h1

/-- A member of the upserted store carrying the upserted id is the
upserted record itself. -/
theorem mem_upsert_of_id {s : Store} {r x : StoredRecord} (hx : x ∈ upsert s r)
    (hid : x.id = r.id) : x = r := by
  unfold upsert at hx
  split at hx
  · obtain ⟨y, hy, hxy⟩ := List.mem_map.mp hx
    by_cases hyid : y.id = r.id
    · rw [← hxy, if_pos hyid]
    · rw [← hxy, if_neg hyid] at hid ⊢
      subst hxy
      exact absurd hid hyid
  · rename_i hany
    rcases List.mem_append.mp hx with h1 | h1
    · exact absurd (List.any_eq_true.mpr ⟨x, h1, by simpa using hid⟩) hany
    · simpa using h1

/-- Upserting records that share an id yields stores with the same id
sequence. -/
theorem upsert_map_id {s : Store} {r₁ r₂ : StoredRecord} (h : r₁.id = r₂.id) :
    (upsert s r₁).map (fun r => r.id) = (upsert s r₂).map (fun r => r.id) := by
  unfold upsert
  rw [h]
  split
  · rw [List.map_map, List.map_map]
    apply List.map_congr_left
    intro x _
    by_cases hx : x.id = r₂.id <;> simp [hx, h]
  · simp [h]

/-- Every match returned by a store query is a stored record that passes
the filter. -/
theorem queryStore_mem {s : Store} {v : List ℝ} {k : Nat}
    {f : StoredRecord → Bool} {r : StoredRecord} (h : r ∈ queryStore s v k f) :
    r ∈ s ∧ f r = true := by
  unfold queryStore at h
  have h1 : r ∈ sortByCmp (bySimilarity v) (s.filter f) := List.mem_of_mem_take h
  rw [mem_sortByCmp] at h1
  exact ⟨(List.mem_filter.mp h1).1, (List.mem_filter.mp h1).2⟩

/-- Every result of `getRelatedMemories` is a stored record whose
metadata carries `salient = true`. -/
theorem mem_getRelatedMemories {env : Env} {s : Store} {q : String} {k : Nat}
    {r : StoredRecord} (h : r ∈ getRelatedMemories env s q k) :
    r ∈ s ∧ r.metadata.salient = some true := by
  unfold getRelatedMemories at h
  cases hc : getRelatedMemoriesCore env s q k with
  | error e => rw [hc] at h; simp at h
  | ok l =>
    rw [hc] at h
    unfold getRelatedMemoriesCore at hc
    cases hemb : env.embed q with
    | error e => rw [hemb] at hc; simp [bind, Except.bind] at hc
    | ok qe =>
      rw [hemb] at hc
      cases hqok : env.queryOk with
      | error e => rw [hqok] at hc; simp [bind, Except.bind] at hc
      | ok u =>
        rw [hqok] at hc
        simp only [bind, Except.bind, pure, Except.pure, Except.ok.injEq] at hc
        subst hc
        have h2 : r ∈ queryStore s qe k salientFilter := by
          have := List.mem_of_mem_take h
          rwa [mem_sortByCmp] at this
        have h3 := queryStore_mem h2
        refine ⟨h3.1, ?_⟩
        have := h3.2
        simpa [salientFilter] using this

/-! ## C6: oracle parse handling -/

/-- A concrete environment whose oracle completions do not parse as JSON
at all (`JSON.parse` throws). -/
noncomputable def parseFailEnv : Env where
  embed := fun _ => .ok [1]
  summaryResponse := fun _ => .ok "summary"
  importanceResponse := fun _ => .ok (1/2)
  salientResponse := fun _ => .ok none
  updateResponse := fun _ _ => .ok none
  queryOk := .ok ()
  upsertOk := .ok ()
  now := 200
  freshId := "fresh-id"

/-- A concrete environment whose oracle completions parse as JSON `null`:
parseable JSON, but not the expected structure. -/
noncomputable def nullOracleEnv : Env :=
  { parseFailEnv with
    salientResponse := fun _ => .ok (some .null),
    updateResponse := fun _ _ => .ok (some .null) }

/-- A concrete environment whose oracle completions parse as JSON that is
neither `null` nor an object with the expected fields (for example the
bare number `42`). -/
noncomputable def junkOracleEnv : Env :=
  { parseFailEnv with
    salientResponse := fun _ => .ok (some .other),
    updateResponse := fun _ _ => .ok (some .other) }

/-- Claim C6, counterexample:  The completion `null` is valid JSON that is
not parseable as the expected structured result, yet the classifier does
not return `{isSalient: false, summary: ""}` — `JSON.parse` succeeds, the
`catch` never fires, and the parsed value is returned verbatim (likewise
the adjudicator does not return `{update: false, updatedSummary: ""}`);
moreover `addMemory`'s subsequent `salientDecision.isSalient` access on
`null` raises a `TypeError` that its `catch` rethrows, so this parse
failure does propagate an error to the caller. -/
theorem fail_closed_parsing_counterexample :
    evaluateSalientMemory nullOracleEnv "My name is Alex" = .ok .null ∧
    (JsonValue.null : JsonValue SalientDecision) ≠ .obj ⟨false, ""⟩ ∧
    evaluateMemoryUpdate nullOracleEnv "new fact" "old fact" = .ok .null ∧
    (JsonValue.null : JsonValue UpdateDecision) ≠ .obj ⟨false, ""⟩ ∧
    addMemory nullOracleEnv [] "My name is Alex" "conversation" [] [] =
      .error .typeError := by
  refine ⟨rfl, by decide, rfl, by decide, rfl⟩

/-- Claim C6 as amended, confirmed:  The fail-closed defaults apply
exactly to completions on which `JSON.parse` throws: for those the
salience classifier returns `{isSalient: false, summary: ""}` and the
conflict adjudicator `{update: false, updatedSummary: ""}`, and no error
reaches the caller.  A completion that parses as JSON but not as the
expected structure is instead returned verbatim: a non-null,
non-conforming value reads as a falsy decision downstream (so a
salience-gated `addMemory` still terminates as a no-op without error),
while a `null` completion makes `addMemory`'s property access raise a
`TypeError` that is rethrown to the caller. -/
theorem fail_closed_oracle_parsing :
    (∀ env c newC exC,
      env.salientResponse c = .ok none →
      env.updateResponse newC exC = .ok none →
      evaluateSalientMemory env c = .ok (.obj ⟨false, ""⟩) ∧
      evaluateMemoryUpdate env newC exC = .ok (.obj ⟨false, ""⟩)) ∧
    (∀ env c newC exC (v : JsonValue SalientDecision)
        (w : JsonValue UpdateDecision),
      env.salientResponse c = .ok (some v) →
      env.updateResponse newC exC = .ok (some w) →
      evaluateSalientMemory env c = .ok v ∧
      evaluateMemoryUpdate env newC exC = .ok w) ∧
    (∀ env s c ty tags rel,
      isTrivial c = false →
      env.salientResponse c = .ok (some .other) → ty ≠ "important" →
      addMemory env s c ty tags rel = .ok (s, 1)) ∧
    (∀ env s c ty tags rel,
      isTrivial c = false →
      env.salientResponse c = .ok (some .null) →
      addMemory env s c ty tags rel = .error .typeError) := by
  refine ⟨?_, ?_, ?_, ?_⟩
  · intro env c newC exC hs hu
    constructor
    · simp [evaluateSalientMemory, hs, Except.map]
    · simp [evaluateMemoryUpdate, hu, Except.map]
  · intro env c newC exC v w hs hu
    constructor
    · simp [evaluateSalientMemory, hs, Except.map]
    · simp [evaluateMemoryUpdate, hu, Except.map]
  · intro env s c ty tags rel htriv hsal hty
    have h1 : evaluateSalientMemory env c = .ok .other := by
      simp [evaluateSalientMemory, hsal, Except.map]
    unfold addMemory
    simp only [htriv, Bool.false_eq_true, if_false, bind, Except.bind]
    rw [h1]
    dsimp only [JsonValue.truthyField]
    have hgate : (!false && ty != "important") = true := by simp [hty]
    rw [if_pos hgate]
    rfl
  · intro env s c ty tags rel htriv hsal
    have h1 : evaluateSalientMemory env c = .ok .null := by
      simp [evaluateSalientMemory, hsal, Except.map]
    unfold addMemory
    simp only [htriv, Bool.false_eq_true, if_false, bind, Except.bind]
    rw [h1]
    dsimp only [JsonValue.truthyField]

theorem fail_closed_oracle_parsing_witness :
    (evaluateSalientMemory parseFailEnv "Not valid JSON" =
        .ok (.obj ⟨false, ""⟩) ∧
      evaluateMemoryUpdate parseFailEnv "new fact" "old fact" =
        .ok (.obj ⟨false, ""⟩)) ∧
    (evaluateSalientMemory junkOracleEnv "User info" = .ok .other ∧
      evaluateMemoryUpdate junkOracleEnv "new fact" "old fact" = .ok .other) ∧
    addMemory junkOracleEnv [] "The weather is lovely today" "conversation"
      [] [] = .ok ([], 1) ∧
    addMemory nullOracleEnv [] "My name is Alex" "conversation" [] [] =
      .error .typeError :=
  ⟨fail_closed_oracle_parsing.1 parseFailEnv "Not valid JSON" "new fact"
      "old fact" rfl rfl,
   fail_closed_oracle_parsing.2.1 junkOracleEnv "User info" "new fact"
      "old fact" .other .other rfl rfl,
   fail_closed_oracle_parsing.2.2.1 junkOracleEnv [] "The weather is lovely today"
      "conversation" [] [] (by decide) rfl (by decide),
   fail_closed_oracle_parsing.2.2.2 nullOracleEnv [] "My name is Alex"
      "conversation" [] [] (by decide) rfl⟩

/-! ## C3: the triviality filter -/

/-- Claim C3, counterexample:  The claim's policy — strip a leading
`speaker:` prefix, lowercase and trim, then test greetings and the
length-5 threshold — disagrees with `isTrivial` on `"a: b: hi"`: the code
takes the segment after the *last* colon (`" hi"`, a greeting), while the
claimed policy strips only the leading `"a:"`, leaving `"b: hi"`, which is
neither a greeting nor shorter than 5 characters. -/
theorem triviality_filter_counterexample :
    isTrivial "a: b: hi" = true ∧ isTrivialClaim "a: b: hi" = false := by
  constructor
  · decide
  · decide

/-- Claim C3 as amended, confirmed:  `addMemory`'s first gate classifies a
text as trivial exactly when the segment after the *last* colon (the whole
text when there is no colon; the raw text when that segment trims to the
empty string), trimmed and lowercased, is one of the fixed greeting tokens
or is shorter than 5 characters; on the trivial branch `addMemory`
performs zero external calls and leaves the store unchanged. -/
theorem triviality_filter_amended :
    (∀ text, isTrivial text = isTrivialAmended text) ∧
    (∀ env s content ty tags rel, isTrivial content = true →
      addMemory env s content ty tags rel = .ok (s, 0)) := by
  constructor
  · intro text
    unfold isTrivial isTrivialAmended
    have hseg : (splitOnColon text.data).reverse.headD text.data =
        (splitOnColon text.data).getLastD text.data := by
      cases h : splitOnColon text.data using List.reverseRecOn <;> simp
    rw [hseg]
    cases hg : greetings.contains
        (if lowerChars (trimChars ((splitOnColon text.data).getLastD text.data)) = []
         then text.data
         else lowerChars (trimChars ((splitOnColon text.data).getLastD text.data))) <;>
      simp [hg]
  · intro env s content ty tags rel h
    unfold addMemory
    rw [h]
    rfl

theorem triviality_filter_amended_witness :
    isTrivial "hey" = true ∧
    addMemory parseFailEnv [] "hey" "conversation" [] [] = .ok ([], 0) :=
  ⟨by decide,
    triviality_filter_amended.2 parseFailEnv [] "hey" "conversation" [] [] (by decide)⟩

/-! ## The shape of a successful `editMemory` run -/

/-- A successful `editMemory` run upserts exactly one full replacement
record under the edited id: content and embedding from the new text,
`timestamp`/`lastAccessed` at the edit time, `type` `"conversation"`, no
tags or relations, and the `salient` field present only when requested. -/
theorem editMemory_ok_shape {env : Env} {s : Store} {mid nc : String}
    {ns : Option String} {sal : Bool} {s' : Store} {n : Nat}
    (h : editMemory env s mid nc ns sal = .ok (s', n)) :
    ∃ emb summary imp,
      env.embed nc = .ok emb ∧
      s' = upsert s
        { id := mid, values := emb, metadata :=
          { content := nc, timestamp := env.now, type := "conversation",
            summary := summary, importance := imp,
            lastAccessed := env.now, version := 1,
            salient := if sal then some true else none,
            tags := none, relations := none } } := by
  unfold editMemory at h
  cases hemb : env.embed nc with
  | error e => rw [hemb] at h; simp [bind, Except.bind] at h
  | ok emb =>
    rw [hemb] at h
    simp only [bind, Except.bind] at h
    by_cases hp : ns.getD "" = ""
    · rw [if_pos hp] at h
      cases hsum : env.summaryResponse nc with
      | error e2 => rw [hsum] at h; simp [Except.map] at h
      | ok sm =>
        rw [hsum] at h
        simp only [Except.map] at h
        cases himp : env.importanceResponse nc with
        | error e2 => rw [himp] at h; simp at h
        | ok imp =>
          rw [himp] at h
          cases hup : env.upsertOk with
          | error e2 => rw [hup] at h; simp at h
          | ok u =>
            rw [hup] at h
            simp only [pure, Except.pure, Except.ok.injEq, Prod.mk.injEq] at h
            exact ⟨emb, sm, imp, rfl, h.1.symm⟩
    · rw [if_neg hp] at h
      simp only [pure, Except.pure] at h
      cases himp : env.importanceResponse nc with
      | error e2 => rw [himp] at h; simp at h
      | ok imp =>
        rw [himp] at h
        cases hup : env.upsertOk with
        | error e2 => rw [hup] at h; simp at h
        | ok u =>
          rw [hup] at h
          simp only [pure, Except.pure, Except.ok.injEq, Prod.mk.injEq] at h
          exact ⟨emb, ns.getD "", imp, rfl, h.1.symm⟩

/-! ## C9: service-failure asymmetry -/

/-- Claim C9, confirmed:  When the external embedding call fails, the read
paths `getRelatedMemories`, `getMemoriesByFilter`, and
`searchMemoriesComplex` swallow the error (their `catch` returns the empty
list), whereas `addMemory` — on content that passes its gates — rethrows
the same error to its caller. -/
theorem service_failure_asymmetry (env : Env) (e : ServiceError) (s : Store)
    (q c ty sm : String) (tags rel : List String) (k : Nat)
    (filter : StoredRecord → Bool) (filters : Option (StoredRecord → Bool))
    (hembed : ∀ t, env.embed t = .error e)
    (htriv : isTrivial c = false)
    (hsal : env.salientResponse c = .ok (some (.obj ⟨true, sm⟩))) :
    getRelatedMemories env s q k = [] ∧
    getMemoriesByFilter env s filter q k = [] ∧
    searchMemoriesComplex env s q filters k = [] ∧
    addMemory env s c ty tags rel = .error e := by
  refine ⟨?_, ?_, ?_, ?_⟩
  · unfold getRelatedMemories getRelatedMemoriesCore
    rw [hembed q]
    simp [bind, Except.bind]
  · unfold getMemoriesByFilter getMemoriesByFilterCore
    rw [hembed q]
    simp [bind, Except.bind]
  · unfold searchMemoriesComplex searchMemoriesComplexCore
    rw [hembed q]
    simp [bind, Except.bind]
  · unfold addMemory
    simp [htriv, evaluateSalientMemory, hsal, hembed c, bind, Except.bind,
      Except.map, JsonValue.truthyField]

/-- A concrete environment whose embedding service is down. -/
noncomputable def embedFailEnv : Env :=
  { parseFailEnv with
    embed := fun _ => .error .embedding
    salientResponse := fun _ => .ok (some (.obj ⟨true, "User's name is Alex"⟩)) }

theorem service_failure_asymmetry_witness :
    getRelatedMemories embedFailEnv [] "What is my name" 5 = [] ∧
    getMemoriesByFilter embedFailEnv [] (fun _ => true) "What is my name" 10 = [] ∧
    searchMemoriesComplex embedFailEnv [] "What is my name" none 5 = [] ∧
    addMemory embedFailEnv [] "My name is Alex" "conversation" [] [] =
      .error .embedding :=
  service_failure_asymmetry embedFailEnv .embedding [] "What is my name"
    "My name is Alex" "conversation" "User's name is Alex" [] [] 5
    (fun _ => true) none (fun _ => rfl) (by decide) rfl

/-! ## C10: non-salient edits leave the salience filter -/

/-- Claim C10, confirmed:  When `editMemory` is called with `isSalient`
false (its default), the upserted record's metadata omits the `salient`
flag entirely (`none`); consequently the record stored under the edited id
no longer satisfies the `salient = true` filter, so it is excluded from
`getRelatedMemories` results and from `addMemory`'s duplicate probe
(`topK 1` over the salient filter) on the resulting store. -/
theorem edit_memory_drops_salient_flag (env : Env) (s : Store)
    (mid nc : String) (ns : Option String) (s' : Store) (n : Nat)
    (h : editMemory env s mid nc ns false = .ok (s', n)) :
    (∀ r ∈ s', r.id = mid → r.metadata.salient = none) ∧
    (∀ env' q k, ∀ r ∈ getRelatedMemories env' s' q k, r.id ≠ mid) ∧
    (∀ v r, r ∈ queryStore s' v 1 salientFilter → r.id ≠ mid) := by
  obtain ⟨emb, summary, imp, _, hs'⟩ := editMemory_ok_shape h
  have hsal : ∀ r ∈ s', r.id = mid → r.metadata.salient = none := by
    intro r hr hid
    rw [hs'] at hr
    have := mem_upsert_of_id hr (by simpa using hid)
    rw [this]
    rfl
  refine ⟨hsal, ?_, ?_⟩
  · intro env' q k r hr hid
    obtain ⟨hmem, hsome⟩ := mem_getRelatedMemories hr
    rw [hsal r hmem hid] at hsome
    cases hsome
  · intro v r hr hid
    obtain ⟨hmem, hfil⟩ := queryStore_mem hr
    have hsome : r.metadata.salient = some true := by simpa [salientFilter] using hfil
    rw [hsal r hmem hid] at hsome
    cases hsome

/-- A record held in the store for the concrete scenarios. -/
noncomputable def sampleRec : StoredRecord :=
  { id := "m1", values := [1]
    metadata :=
      { content := "User's name is Alex", timestamp := 100,
        type := "conversation", summary := "name is Alex", importance := 1/2,
        lastAccessed := 100, version := 1, salient := some true,
        tags := some ["personal"], relations := some [] } }

/-- The record left under `sampleRec`'s id by the non-salient edit. -/
noncomputable def editedSampleRec : StoredRecord :=
  { id := "m1", values := [1]
    metadata :=
      { content := "corrected fact", timestamp := 200,
        type := "conversation", summary := "short note",
        importance := 1/2, lastAccessed := 200, version := 1,
        salient := none, tags := none, relations := none } }

theorem edit_memory_drops_salient_flag_witness :
    editedSampleRec.metadata.salient = none :=
  (edit_memory_drops_salient_flag parseFailEnv [sampleRec] "m1"
    "corrected fact" (some "short note") [editedSampleRec] 3 rfl).1
    editedSampleRec (List.mem_cons_self _ _) rfl

/-! ## C8: consolidation contract -/

/-- Claim C8, confirmed:  For fewer than 3 input memories,
`consolidateThreadMemories` is a no-op (the store is unchanged and zero
external calls are made); for 3 or more it creates exactly one new record
whose content is the oracle summary of the concatenated inputs, with
importance fixed at `0.7`, tagged `"consolidated"`, and with `relations`
equal to the ids of the input memories, while every source record already
in the store is left untouched. -/
theorem consolidation_contract :
    (∀ env s tms, tms.length < 3 →
      consolidateThreadMemories env s tms = .ok (s, 0)) ∧
    (∀ env s (tms : List StoredRecord) sm emb,
      3 ≤ tms.length →
      env.summaryResponse
        (String.intercalate "\n\n" (tms.map (fun m => m.metadata.content))) = .ok sm →
      env.embed sm = .ok emb →
      env.upsertOk = .ok () →
      (∀ r ∈ s, r.id ≠ env.freshId) →
      consolidateThreadMemories env s tms =
        .ok (s ++ [{ id := env.freshId, values := emb, metadata :=
          { content := sm, timestamp := env.now,
            type := "conversation_consolidated",
            summary := sm.take 200 ++ "...", importance := 0.7,
            lastAccessed := env.now, version := 1, salient := none,
            tags := some ["consolidated"],
            relations := some (tms.map (fun m => m.id)) } }], 3)) := by
  constructor
  · intro env s tms h
    unfold consolidateThreadMemories
    rw [if_pos h]
    rfl
  · intro env s tms sm emb hlen hsum hemb hup hfresh
    unfold consolidateThreadMemories
    rw [if_neg (by omega)]
    simp only [bind, Except.bind]
    rw [hsum]
    dsimp only
    rw [hemb]
    dsimp only
    rw [hup]
    simp only [pure, Except.pure, Except.ok.injEq, Prod.mk.injEq]
    refine ⟨?_, trivial⟩
    unfold upsert
    rw [if_neg ?_]
    simp only [List.any_eq_true, decide_eq_true_eq, not_exists, not_and]
    intro r hr
    exact hfresh r hr

theorem consolidation_contract_witness :
    consolidateThreadMemories parseFailEnv []
        [sampleRec, { sampleRec with id := "t2" }] = .ok ([], 0) ∧
    consolidateThreadMemories parseFailEnv []
        [sampleRec, { sampleRec with id := "t2" }, { sampleRec with id := "t3" }] =
      .ok ([{ id := "fresh-id", values := [1], metadata :=
        { content := "summary", timestamp := 200,
          type := "conversation_consolidated",
          summary := "summary".take 200 ++ "...", importance := 0.7,
          lastAccessed := 200, version := 1, salient := none,
          tags := some ["consolidated"],
          relations := some ["m1", "t2", "t3"] } }], 3) :=
  ⟨consolidation_contract.1 parseFailEnv [] _ (by simp),
   consolidation_contract.2 parseFailEnv [] _ "summary" [1] (by simp) rfl rfl rfl
     (by simp)⟩

/-! ## C5: the storage gate -/

/-- The id sequence of a write result: which records exist, in order,
ignoring their contents. -/
noncomputable def resultIds (r : Except ServiceError (Store × Nat)) :
    Except ServiceError (List String) :=
  r.map (fun p => p.1.map (fun rec => rec.id))

/-- Appending a call-count adjustment preserves result-id equality. -/
theorem resultIds_bind_const (k : Nat) :
    ∀ {r₁ r₂ : Except ServiceError (Store × Nat)},
      resultIds r₁ = resultIds r₂ →
      resultIds (r₁ >>= fun p => pure (p.1, k + p.2)) =
        resultIds (r₂ >>= fun p => pure (p.1, k + p.2)) := by
  intro r₁ r₂ h
  cases r₁ <;> cases r₂ <;>
    simp_all [resultIds, Except.map, bind, Except.bind, pure, Except.pure]

/-- The method `editMemory` produces the same record ids whatever the importance
oracle answers. -/
theorem editMemory_resultIds_importance (env : Env) (i₁ i₂ : ℝ) (s : Store)
    (mid nc : String) (ns : Option String) (sal : Bool) :
    resultIds (editMemory
        { env with importanceResponse := fun _ => .ok i₁ } s mid nc ns sal) =
      resultIds (editMemory
        { env with importanceResponse := fun _ => .ok i₂ } s mid nc ns sal) := by
  unfold editMemory
  dsimp only
  cases hemb : env.embed nc with
  | error e => simp [hemb, bind, Except.bind, resultIds, Except.map]
  | ok emb =>
    simp only [hemb, bind, Except.bind]
    by_cases hp : ns.getD "" = ""
    · simp only [if_pos hp]
      cases hsum : env.summaryResponse nc with
      | error e => simp [hsum, Except.map, resultIds]
      | ok sm =>
        simp only [hsum, Except.map]
        cases hup : env.upsertOk with
        | error e => simp [hup, resultIds]
        | ok u =>
          simp only [hup, pure, Except.pure, resultIds, Except.map]
          exact congrArg Except.ok (upsert_map_id rfl)
    · simp only [if_neg hp, pure, Except.pure]
      cases hup : env.upsertOk with
      | error e => simp [hup, resultIds]
      | ok u =>
        simp only [hup, pure, Except.pure, resultIds, Except.map]
        exact congrArg Except.ok (upsert_map_id rfl)

/-- The helper `addMemoryCreate` never consults the importance oracle, so replacing
that oracle leaves it unchanged. -/
theorem addMemoryCreate_env_importance (env : Env)
    (f : String → Except ServiceError ℝ) (s : Store) (c ty : String)
    (tags rel : List String) (d : JsonValue SalientDecision)
    (emb : List ℝ) (i : ℝ) :
    addMemoryCreate { env with importanceResponse := f } s c ty tags rel d emb i =
      addMemoryCreate env s c ty tags rel d emb i := rfl

/-- The helper `addMemoryCreate` produces the same record ids whatever importance
value was scored. -/
theorem addMemoryCreate_resultIds_importance (env : Env) (i₁ i₂ : ℝ) (s : Store)
    (c ty : String) (tags rel : List String) (d : JsonValue SalientDecision)
    (emb : List ℝ) :
    resultIds (addMemoryCreate env s c ty tags rel d emb i₁) =
      resultIds (addMemoryCreate env s c ty tags rel d emb i₂) := by
  unfold addMemoryCreate
  cases htr : d.truthyField SalientDecision.isSalient with
  | error e => simp [htr, bind, Except.bind, resultIds, Except.map]
  | ok b =>
    simp only [htr, bind, Except.bind]
    cases b with
    | true =>
      simp only [if_true, pure, Except.pure]
      cases hup : env.upsertOk with
      | error e => simp [hup, resultIds]
      | ok u =>
        simp only [hup, pure, Except.pure, resultIds, Except.map]
        exact congrArg Except.ok (upsert_map_id rfl)
    | false =>
      simp only [Bool.false_eq_true, if_false]
      cases hsum : env.summaryResponse c with
      | error e => simp [hsum, Except.map, resultIds]
      | ok sm =>
        simp only [hsum, Except.map]
        cases hup : env.upsertOk with
        | error e => simp [hup, resultIds]
        | ok u =>
          simp only [hup, pure, Except.pure, resultIds, Except.map]
          exact congrArg Except.ok (upsert_map_id rfl)

/-- Claim C5, confirmed:  `addMemory` writes to the store (creates or
updates a record) only when the salience classifier returned
`isSalient = true` or the caller's `type` equals `"important"`; when the
content is non-trivial, not classified salient, and the type is not
`"important"`, `addMemory` terminates as a no-op without error (after the
single classifier call); and the computed importance score never affects
whether a record is created — the id sequence of the result is the same
whatever the importance oracle answers. -/
theorem storage_gate :
    (∀ env s c ty tags rel v,
      isTrivial c = false →
      evaluateSalientMemory env c = .ok v →
      v.truthyField SalientDecision.isSalient = .ok false → ty ≠ "important" →
      addMemory env s c ty tags rel = .ok (s, 1)) ∧
    (∀ env s c ty tags rel out,
      addMemory env s c ty tags rel = .ok out → out.1 ≠ s →
      (∃ v, evaluateSalientMemory env c = .ok v ∧
        v.truthyField SalientDecision.isSalient = .ok true) ∨
        ty = "important") ∧
    (∀ (env : Env) (i₁ i₂ : ℝ) (s : Store) (c ty : String)
        (tags rel : List String),
      resultIds (addMemory
          { env with importanceResponse := fun _ => .ok i₁ } s c ty tags rel) =
        resultIds (addMemory
          { env with importanceResponse := fun _ => .ok i₂ } s c ty tags rel)) := by
  refine ⟨?_, ?_, ?_⟩
  · intro env s c ty tags rel v htriv hsal htr hne
    unfold addMemory
    simp only [htriv, Bool.false_eq_true, if_false, bind, Except.bind]
    rw [hsal]
    dsimp only
    rw [htr]
    dsimp only
    have hgate : (!false && ty != "important") = true := by simp [hne]
    rw [if_pos hgate]
    rfl
  · intro env s c ty tags rel out h hne
    unfold addMemory at h
    by_cases htriv : isTrivial c
    · rw [if_pos htriv] at h
      simp only [pure, Except.pure, Except.ok.injEq] at h
      exact absurd (congrArg Prod.fst h.symm) hne
    · simp only [htriv, Bool.false_eq_true, if_false, bind, Except.bind] at h
      cases hsal : evaluateSalientMemory env c with
      | error e => rw [hsal] at h; cases h
      | ok v =>
        rw [hsal] at h
        dsimp only at h
        cases htr : v.truthyField SalientDecision.isSalient with
        | error e => rw [htr] at h; cases h
        | ok b =>
          rw [htr] at h
          dsimp only at h
          by_cases hgate : (!b && ty != "important") = true
          · rw [if_pos hgate] at h
            simp only [pure, Except.pure, Except.ok.injEq] at h
            exact absurd (congrArg Prod.fst h.symm) hne
          · rcases Bool.and_eq_false_iff.mp (Bool.not_eq_true _ |>.mp hgate) with h1 | h1
            · left
              have hb : b = true := by simpa using h1
              exact ⟨v, rfl, by rw [htr, hb]⟩
            · right
              simpa [bne_iff_ne] using h1
  · intro env i₁ i₂ s c ty tags rel
    by_cases htriv : isTrivial c
    · unfold addMemory
      simp only [if_pos htriv]
    · unfold addMemory
      simp only [htriv, Bool.false_eq_true, if_false, bind, Except.bind]
      have hsalEq : ∀ (i : ℝ),
          evaluateSalientMemory
              { env with importanceResponse := fun _ => .ok i } c =
            evaluateSalientMemory env c := fun _ => rfl
      rw [hsalEq i₁, hsalEq i₂]
      cases hsal : evaluateSalientMemory env c with
      | error e => rfl
      | ok v =>
        dsimp only
        cases htr : v.truthyField SalientDecision.isSalient with
        | error e => rfl
        | ok b =>
          dsimp only
          by_cases hgate : (!b && ty != "important") = true
          · simp only [if_pos hgate]
          · simp only [if_neg hgate]
            have hembEq : ∀ (i : ℝ),
                ({ env with importanceResponse := fun _ => .ok i } : Env).embed =
                  env.embed := fun _ => rfl
            rw [hembEq i₁, hembEq i₂]
            cases hemb : env.embed c with
            | error e => rfl
            | ok emb =>
              dsimp only
              have hcreate : ∀ (k : Nat),
                  resultIds
                    ((addMemoryCreate { env with importanceResponse := fun _ => .ok i₁ }
                        s c ty tags rel v emb i₁) >>= fun p => pure (p.1, k + p.2)) =
                  resultIds
                    ((addMemoryCreate { env with importanceResponse := fun _ => .ok i₂ }
                        s c ty tags rel v emb i₂) >>= fun p => pure (p.1, k + p.2)) := by
                intro k
                refine resultIds_bind_const k ?_
                rw [addMemoryCreate_env_importance, addMemoryCreate_env_importance]
                exact addMemoryCreate_resultIds_importance env i₁ i₂ s c ty tags rel v emb
              cases hisSal : b with
              | false =>
                simp only [Bool.false_eq_true, if_false]
                exact hcreate 3
              | true =>
                simp only [if_true]
                have hqEq : ∀ (i : ℝ),
                    ({ env with importanceResponse := fun _ => .ok i } : Env).queryOk =
                      env.queryOk := fun _ => rfl
                rw [hqEq i₁, hqEq i₂]
                cases hq : env.queryOk with
                | error e => rfl
                | ok u =>
                  dsimp only
                  cases hprobe : queryStore s emb 1 salientFilter with
                  | nil => exact hcreate 4
                  | cons ex rest =>
                    by_cases hsim : calculateCosineSimilarity emb ex.values > 0.8
                    · simp only [if_pos hsim]
                      dsimp only [evaluateMemoryUpdate]
                      cases hud : env.updateResponse c ex.metadata.content with
                      | error e => rfl
                      | ok parsed =>
                        dsimp only [Except.map]
                        cases hupd : (parsed.getD (.obj ⟨false, ""⟩)).truthyField
                            UpdateDecision.update with
                        | error e => rfl
                        | ok b2 =>
                          dsimp only
                          cases b2 with
                          | false => rfl
                          | true =>
                            simp only [if_true]
                            exact resultIds_bind_const 5
                              (editMemory_resultIds_importance env i₁ i₂ s ex.id c
                                (some ((parsed.getD (.obj ⟨false, ""⟩)).stringField
                                  UpdateDecision.updatedSummary)) true)
                    · simp only [if_neg hsim]
                      exact hcreate 4

/-- A concrete environment whose classifier finds a salient fact and
whose adjudicator orders an update. -/
noncomputable def happyEnv : Env :=
  { parseFailEnv with
    salientResponse := fun _ => .ok (some (.obj ⟨true, "User's name is Alex"⟩)),
    updateResponse := fun _ _ => .ok (some (.obj ⟨true, "merged fact"⟩)) }

/-- The record `addMemory happyEnv [] "My name is Alex" "conversation"`
creates. -/
noncomputable def createdRec : StoredRecord :=
  { id := "fresh-id", values := [1]
    metadata :=
      { content := "My name is Alex", timestamp := 200,
        type := "conversation", summary := "User's name is Alex",
        importance := 1/2, lastAccessed := 200, version := 1,
        salient := some true, tags := some [], relations := some [] } }

theorem storage_gate_witness :
    addMemory parseFailEnv [] "The weather is lovely today" "conversation" [] [] =
      .ok ([], 1) ∧
    ((∃ v, evaluateSalientMemory happyEnv "My name is Alex" = .ok v ∧
        v.truthyField SalientDecision.isSalient = .ok true) ∨
      ("conversation" : String) = "important") ∧
    resultIds (addMemory { parseFailEnv with importanceResponse := fun _ => .ok (1/4) }
        [] "My name is Alex" "conversation" [] []) =
      resultIds (addMemory { parseFailEnv with importanceResponse := fun _ => .ok (3/4) }
        [] "My name is Alex" "conversation" [] []) :=
  ⟨storage_gate.1 parseFailEnv [] "The weather is lovely today" "conversation"
      [] [] (.obj ⟨false, ""⟩) (by decide) rfl rfl (by decide),
   storage_gate.2.1 happyEnv [] "My name is Alex" "conversation" [] []
      ([createdRec], 5) rfl (by simp),
   storage_gate.2.2 parseFailEnv (1/4) (3/4) [] "My name is Alex" "conversation"
      [] []⟩

/-! ## C4: ranked retrieval -/

/-- The local re-sort comparator is total (one of the two orders is always
acceptable), because the tie test is symmetric and both keys are linear. -/
theorem relatedLe_total (qe : List ℝ) (a b : StoredRecord) :
    relatedLe qe a b = true ∨ relatedLe qe b a = true := by
  unfold relatedLe
  dsimp only
  by_cases h : |calculateCosineSimilarity qe a.values -
      calculateCosineSimilarity qe b.values| > 0.1
  · rw [if_pos h, if_pos (by rwa [abs_sub_comm] at h)]
    rcases le_total (calculateCosineSimilarity qe b.values -
        calculateCosineSimilarity qe a.values) 0 with h1 | h1
    · left; exact decide_eq_true h1
    · right; exact decide_eq_true (by linarith)
  · rw [if_neg h, if_neg (by rwa [abs_sub_comm] at h)]
    rcases le_total ((b.metadata.lastAccessed : ℝ) -
        (a.metadata.lastAccessed : ℝ)) 0 with h1 | h1
    · left; exact decide_eq_true h1
    · right; exact decide_eq_true (by linarith)

/-- Claim C4, confirmed:  For every query `q` and limit `k` (with the query
embedding `qe`), `getRelatedMemories` returns at most `k` memories, every
returned memory has `salient = true`, and for every adjacent pair `(a, b)`
of the returned order either
`similarity(q,a) - similarity(q,b) > 0.1` or
`a.lastAccessed ≥ b.lastAccessed` — similarity ties within `0.1` fall
through to recency, descending. -/
theorem ranked_retrieval_postcondition (env : Env) (s : Store) (q : String)
    (k : Nat) (qe : List ℝ) (hq : env.embed q = .ok qe) :
    (getRelatedMemories env s q k).length ≤ k ∧
    (∀ r ∈ getRelatedMemories env s q k, r.metadata.salient = some true) ∧
    (getRelatedMemories env s q k).Chain' (fun a b =>
      calculateCosineSimilarity qe a.values -
          calculateCosineSimilarity qe b.values > 0.1 ∨
        b.metadata.lastAccessed ≤ a.metadata.lastAccessed) := by
  refine ⟨?_, fun r hr => (mem_getRelatedMemories hr).2, ?_⟩
  · unfold getRelatedMemories
    cases hc : getRelatedMemoriesCore env s q k with
    | error e => simp
    | ok l =>
      unfold getRelatedMemoriesCore at hc
      rw [hq] at hc
      cases hqok : env.queryOk with
      | error e => rw [hqok] at hc; simp [bind, Except.bind] at hc
      | ok u =>
        rw [hqok] at hc
        simp only [bind, Except.bind, pure, Except.pure, Except.ok.injEq] at hc
        subst hc
        simp [List.length_take]
  · unfold getRelatedMemories
    cases hc : getRelatedMemoriesCore env s q k with
    | error e => simp
    | ok l =>
      unfold getRelatedMemoriesCore at hc
      rw [hq] at hc
      cases hqok : env.queryOk with
      | error e => rw [hqok] at hc; simp [bind, Except.bind] at hc
      | ok u =>
        rw [hqok] at hc
        simp only [bind, Except.bind, pure, Except.pure, Except.ok.injEq] at hc
        subst hc
        refine chain'_take _ ?_ k
        refine List.Chain'.imp ?_
          (chain'_sortByCmp (relatedLe qe) (relatedLe_total qe) _)
        intro a b hab
        unfold relatedLe at hab
        dsimp only at hab
        by_cases h : |calculateCosineSimilarity qe a.values -
            calculateCosineSimilarity qe b.values| > 0.1
        · rw [if_pos h] at hab
          left
          have h1 : calculateCosineSimilarity qe b.values -
              calculateCosineSimilarity qe a.values ≤ 0 := of_decide_eq_true hab
          rwa [abs_of_nonneg (by linarith)] at h
        · rw [if_neg h] at hab
          right
          have h1 : (b.metadata.lastAccessed : ℝ) -
              (a.metadata.lastAccessed : ℝ) ≤ 0 := of_decide_eq_true hab
          exact_mod_cast sub_nonpos.mp h1

theorem ranked_retrieval_postcondition_witness :
    (getRelatedMemories parseFailEnv [sampleRec] "what is my name" 5).length ≤ 5 ∧
    (∀ r ∈ getRelatedMemories parseFailEnv [sampleRec] "what is my name" 5,
      r.metadata.salient = some true) ∧
    (getRelatedMemories parseFailEnv [sampleRec] "what is my name" 5).Chain'
      (fun a b =>
        calculateCosineSimilarity [1] a.values -
            calculateCosineSimilarity [1] b.values > 0.1 ∨
          b.metadata.lastAccessed ≤ a.metadata.lastAccessed) :=
  ranked_retrieval_postcondition parseFailEnv [sampleRec] "what is my name" 5 [1] rfl

/-! ## C7: reconciliation target selection -/

/-- A record of `s` whose id differs from the upserted id survives the
upsert unchanged. -/
theorem mem_upsert_of_ne {s : Store} {r x : StoredRecord} (hx : x ∈ s)
    (hne : x.id ≠ r.id) : x ∈ upsert s r := by
  unfold upsert
  split
  · exact List.mem_map.mpr ⟨x, hx, by rw [if_neg hne]⟩
  · exact List.mem_append_left _ hx

/-- The presumptive merge `(target, other)` of `resolveMemoryConflicts`
for the pair `(memA, memB)`: `memA` is the target when both `lastAccessed`
values are truthy (nonzero) and `memA`'s is at least `memB`'s, otherwise
`memB` is. -/
def pairTarget (memA memB : StoredRecord) : StoredRecord × StoredRecord :=
  if memA.metadata.lastAccessed ≠ 0 ∧ memB.metadata.lastAccessed ≠ 0 ∧
      memB.metadata.lastAccessed ≤ memA.metadata.lastAccessed then (memA, memB)
  else (memB, memA)

/-- More recent pair member, salient, content a Rome fact. -/
noncomputable def recA : StoredRecord :=
  { id := "rec-a", values := [1]
    metadata :=
      { content := "User lives in Rome", timestamp := 1,
        type := "conversation", summary := "lives in Rome",
        importance := 1/2, lastAccessed := 5, version := 1,
        salient := some true, tags := none, relations := none } }

/-- Pair member whose `lastAccessed` is `0` — falsy in the JS guard. -/
noncomputable def recB : StoredRecord :=
  { id := "rec-b", values := [1]
    metadata :=
      { content := "User lives in Milan", timestamp := 1,
        type := "conversation", summary := "lives in Milan",
        importance := 1/2, lastAccessed := 0, version := 1,
        salient := some true, tags := none, relations := none } }

/-- What `recB` becomes after the conflict sweep edits it. -/
noncomputable def editedRecB : StoredRecord :=
  { id := "rec-b", values := [1]
    metadata :=
      { content := "User lives in Milan", timestamp := 200,
        type := "conversation", summary := "merged fact",
        importance := 1/2, lastAccessed := 200, version := 1,
        salient := some true, tags := none, relations := none } }

/-- Claim C7, counterexample:  With `recB.lastAccessed = 0` — falsy under
the JS truthiness guard `memA.lastAccessed && memB.lastAccessed && …` —
the pair `(recA, recB)` with `recA.lastAccessed = 5 > 0` selects `recB`,
not the member with the greater `lastAccessed`, as the target: the
adjudicator is asked to merge `recA` into `recB`, and `recB`'s record is
the one edited (its summary replaced by the merged summary) while `recA`
is untouched — contradicting the claim that the more recent member is
always the target and the non-target is never edited. -/
theorem reconciliation_target_counterexample :
    recA.metadata.lastAccessed > recB.metadata.lastAccessed ∧
    resolvePairStep happyEnv [recA, recB] recA recB = .ok [recA, editedRecB] ∧
    editedRecB.id = recB.id ∧
    editedRecB.metadata.summary ≠ recB.metadata.summary := by
  exact ⟨by decide, rfl, rfl, by decide⟩

/-- Claim C7 as amended, confirmed:  For every compared pair, the target is
`memA` exactly when both `lastAccessed` values are nonzero (truthy) and
`memA`'s is at least `memB`'s, otherwise `memB` (so a zero `lastAccessed`
on either side, or a strictly larger `memB`, selects `memB`); the
adjudicator is asked whether the other member's content should merge into
the target's, and when it answers `update = true` only the target's record
is edited — under its own id, keeping its own content, receiving the
merged summary — while every record with a different id survives
unchanged; on `update = false` the store is untouched. -/
theorem reconciliation_target_amended (env : Env) (s : Store)
    (memA memB : StoredRecord) (s' : Store)
    (h : resolvePairStep env s memA memB = .ok s') :
    (∀ r ∈ s, r.id ≠ (pairTarget memA memB).1.id → r ∈ s') ∧
    (∃ ud, evaluateMemoryUpdate env (pairTarget memA memB).2.metadata.content
        (pairTarget memA memB).1.metadata.content = .ok ud ∧
      ((ud.truthyField UpdateDecision.update = .ok false ∧ s' = s) ∨
       (ud.truthyField UpdateDecision.update = .ok true ∧
        ∃ n, editMemory env s (pairTarget memA memB).1.id
          (pairTarget memA memB).1.metadata.content
          (some (ud.stringField UpdateDecision.updatedSummary)) true =
            .ok (s', n)))) := by
  unfold resolvePairStep at h
  unfold pairTarget
  by_cases hc : memA.metadata.lastAccessed ≠ 0 ∧ memB.metadata.lastAccessed ≠ 0 ∧
      memB.metadata.lastAccessed ≤ memA.metadata.lastAccessed
  · rw [if_pos hc] at h ⊢
    simp only [bind, Except.bind] at h
    cases hud : evaluateMemoryUpdate env memB.metadata.content memA.metadata.content with
    | error e => rw [hud] at h; cases h
    | ok ud =>
      rw [hud] at h
      dsimp only at h
      cases htr : ud.truthyField UpdateDecision.update with
      | error e => rw [htr] at h; cases h
      | ok b =>
        rw [htr] at h
        dsimp only at h
        rcases Bool.eq_false_or_eq_true b with hb | hb
        · rw [hb] at h
          simp only [if_true] at h
          cases hedit : editMemory env s memA.id memA.metadata.content
              (some (ud.stringField UpdateDecision.updatedSummary)) true with
          | error e => rw [hedit] at h; cases h
          | ok p =>
            rw [hedit] at h
            simp only [Except.map, Except.ok.injEq] at h
            subst h
            refine ⟨?_, ud, rfl, Or.inr ⟨by rw [htr, hb], p.2, by simp [hedit]⟩⟩
            intro r hr hne
            obtain ⟨emb, sm, imp, _, hshape⟩ := editMemory_ok_shape hedit
            rw [hshape]
            exact mem_upsert_of_ne hr hne
        · rw [hb] at h
          simp only [Bool.false_eq_true, if_false, pure, Except.pure,
            Except.ok.injEq] at h
          subst h
          exact ⟨fun r hr _ => hr, ud, rfl, Or.inl ⟨by rw [htr, hb], rfl⟩⟩
  · rw [if_neg hc] at h ⊢
    simp only [bind, Except.bind] at h
    cases hud : evaluateMemoryUpdate env memA.metadata.content memB.metadata.content with
    | error e => rw [hud] at h; cases h
    | ok ud =>
      rw [hud] at h
      dsimp only at h
      cases htr : ud.truthyField UpdateDecision.update with
      | error e => rw [htr] at h; cases h
      | ok b =>
        rw [htr] at h
        dsimp only at h
        rcases Bool.eq_false_or_eq_true b with hb | hb
        · rw [hb] at h
          simp only [if_true] at h
          cases hedit : editMemory env s memB.id memB.metadata.content
              (some (ud.stringField UpdateDecision.updatedSummary)) true with
          | error e => rw [hedit] at h; cases h
          | ok p =>
            rw [hedit] at h
            simp only [Except.map, Except.ok.injEq] at h
            subst h
            refine ⟨?_, ud, rfl, Or.inr ⟨by rw [htr, hb], p.2, by simp [hedit]⟩⟩
            intro r hr hne
            obtain ⟨emb, sm, imp, _, hshape⟩ := editMemory_ok_shape hedit
            rw [hshape]
            exact mem_upsert_of_ne hr hne
        · rw [hb] at h
          simp only [Bool.false_eq_true, if_false, pure, Except.pure,
            Except.ok.injEq] at h
          subst h
          exact ⟨fun r hr _ => hr, ud, rfl, Or.inl ⟨by rw [htr, hb], rfl⟩⟩

/-- Record `recB` with a truthy, smaller `lastAccessed`. -/
noncomputable def recB3 : StoredRecord :=
  { recB with metadata := { recB.metadata with lastAccessed := 3 } }

/-- What `recA` becomes once the sweep merges `recB3` into it. -/
noncomputable def editedRecA : StoredRecord :=
  { id := "rec-a", values := [1]
    metadata :=
      { content := "User lives in Rome", timestamp := 200,
        type := "conversation", summary := "merged fact",
        importance := 1/2, lastAccessed := 200, version := 1,
        salient := some true, tags := none, relations := none } }

theorem reconciliation_target_amended_witness :
    (∀ r ∈ [recA, recB3], r.id ≠ (pairTarget recA recB3).1.id →
      r ∈ [editedRecA, recB3]) ∧
    (∃ ud, evaluateMemoryUpdate happyEnv
        (pairTarget recA recB3).2.metadata.content
        (pairTarget recA recB3).1.metadata.content = .ok ud ∧
      ((ud.truthyField UpdateDecision.update = .ok false ∧
          [editedRecA, recB3] = [recA, recB3]) ∨
       (ud.truthyField UpdateDecision.update = .ok true ∧
        ∃ n, editMemory happyEnv [recA, recB3]
          (pairTarget recA recB3).1.id
          (pairTarget recA recB3).1.metadata.content
          (some (ud.stringField UpdateDecision.updatedSummary)) true =
            .ok ([editedRecA, recB3], n)))) :=
  reconciliation_target_amended happyEnv [recA, recB3] recA recB3
    [editedRecA, recB3] rfl

/-! ## C2: the conflict update -/

/-- Similarity of the one-component unit vector with itself. -/
theorem cosSim_single_one : calculateCosineSimilarity [1] [1] = 1 := by
  have h1 : sumSquares [1] = 1 := by
    show 1 * 1 + sumSquares [] = 1
    show 1 * 1 + 0 = (1 : ℝ)
    norm_num
  rw [calculateCosineSimilarity_of_unit h1 h1]
  show 1 * 1 + dotProduct [] [] = 1
  show 1 * 1 + 0 = (1 : ℝ)
  norm_num

/-- The complete conflict-update run of `addMemory`: non-trivial salient
content whose probe finds a near-duplicate (`similarity > 0.8`) and whose
adjudicator orders an update replaces the probed record in place.  The
replacement keeps the id `ex.id` but is a whole fresh record: content the
*new* text, embedding regenerated, summary the merged summary (when
non-empty), `salient` re-asserted, and `lastAccessed` — but also
`timestamp` — set to the edit time, `type` overwritten to
`"conversation"`, tags and relations dropped, importance re-scored. -/
theorem addMemory_update_shape (env : Env) (s : Store) (c ty : String)
    (tags rel : List String) (v : JsonValue SalientDecision)
    (emb : List ℝ) (imp : ℝ)
    (ex : StoredRecord) (ud : JsonValue UpdateDecision)
    (htriv : isTrivial c = false)
    (hsal : evaluateSalientMemory env c = .ok v)
    (hisSal : v.truthyField SalientDecision.isSalient = .ok true)
    (hemb : env.embed c = .ok emb)
    (himp : env.importanceResponse c = .ok imp)
    (hqok : env.queryOk = .ok ())
    (hprobe : queryStore s emb 1 salientFilter = [ex])
    (hsim : calculateCosineSimilarity emb ex.values > 0.8)
    (hud : evaluateMemoryUpdate env c ex.metadata.content = .ok ud)
    (hupd : ud.truthyField UpdateDecision.update = .ok true)
    (hus : ud.stringField UpdateDecision.updatedSummary ≠ "")
    (hupok : env.upsertOk = .ok ()) :
    addMemory env s c ty tags rel =
      .ok (s.map (fun r =>
        if r.id = ex.id then
          { id := ex.id, values := emb, metadata :=
            { content := c, timestamp := env.now, type := "conversation",
              summary := ud.stringField UpdateDecision.updatedSummary,
              importance := imp,
              lastAccessed := env.now, version := 1, salient := some true,
              tags := none, relations := none } }
        else r), 8) := by
  have hexmem : ex ∈ s :=
    (queryStore_mem (by rw [hprobe]; exact List.mem_singleton_self ex)).1
  unfold addMemory
  simp only [htriv, Bool.false_eq_true, if_false, bind, Except.bind]
  rw [hsal]
  dsimp only
  rw [hisSal]
  dsimp only
  have hgate : (!true && ty != "important") = false := rfl
  simp only [hgate, Bool.false_eq_true, if_false]
  rw [hemb]
  dsimp only
  rw [himp]
  dsimp only
  simp only [if_true]
  rw [hqok]
  dsimp only
  rw [hprobe]
  dsimp only
  rw [if_pos hsim]
  rw [hud]
  dsimp only
  rw [hupd]
  dsimp only
  simp only [if_true]
  unfold editMemory
  rw [hemb]
  simp only [bind, Except.bind]
  have hprov : (some (ud.stringField UpdateDecision.updatedSummary)).getD "" =
      ud.stringField UpdateDecision.updatedSummary := rfl
  rw [hprov, if_neg hus]
  simp only [pure, Except.pure]
  rw [himp]
  dsimp only
  rw [hupok]
  dsimp only
  simp only [pure, Except.pure, Except.ok.injEq, Prod.mk.injEq]
  refine ⟨?_, trivial⟩
  unfold upsert
  rw [if_pos (List.any_eq_true.mpr ⟨ex, hexmem, by simp⟩)]
  rfl

/-- The record stored under `sampleRec`'s id after the conflict update. -/
noncomputable def updatedSampleRec : StoredRecord :=
  { id := "m1", values := [1]
    metadata :=
      { content := "User now goes by Alexandra", timestamp := 200,
        type := "conversation", summary := "merged fact", importance := 1/2,
        lastAccessed := 200, version := 1, salient := some true,
        tags := none, relations := none } }

/-- Claim C2, counterexample:  In a concrete conflict-update run the
existing record (`sampleRec`, created at time 100 with tags
`["personal"]`) is replaced under its id by a record whose `timestamp` is
the edit time 200 and whose tags are gone: `editMemory` upserts a whole
fresh record, so the claim's frame conditions — `timestamp` (creation
time, set once) and the other metadata fields (tags, relations)
unchanged — are violated. -/
theorem conflict_update_counterexample :
    addMemory happyEnv [sampleRec] "User now goes by Alexandra"
        "conversation" [] [] = .ok ([updatedSampleRec], 8) ∧
    sampleRec.metadata.timestamp = 100 ∧
    updatedSampleRec.metadata.timestamp = 200 ∧
    sampleRec.metadata.tags = some ["personal"] ∧
    updatedSampleRec.metadata.tags = none := by
  refine ⟨?_, rfl, rfl, rfl, rfl⟩
  have h := addMemory_update_shape happyEnv [sampleRec]
    "User now goes by Alexandra" "conversation" [] []
    (.obj ⟨true, "User's name is Alex"⟩) [1] (1/2) sampleRec
    (.obj ⟨true, "merged fact"⟩)
    (by decide) rfl rfl rfl rfl rfl rfl
    (by norm_num
      [show calculateCosineSimilarity [1] sampleRec.values = 1 from cosSim_single_one])
    rfl rfl (by decide) rfl
  rw [h]
  rfl

/-- Claim C2 as amended, confirmed:  When `addMemory`'s duplicate probe finds
a salient near-duplicate (similarity > 0.8) and the adjudicator returns
`update = true` with a non-empty merged summary, the existing record is
replaced in place under its original id — content replaced by the new
text, summary replaced by the merged summary, embedding regenerated,
`salient` re-asserted, `lastAccessed` bumped — and no second record is
created (the store keeps its length); however, because the edit upserts a
whole fresh record, `timestamp` is reset to the edit time, `type` is
overwritten to `"conversation"`, `tags` and `relations` are dropped, and
`importance` is re-scored. -/
theorem conflict_update_in_place (env : Env) (s : Store) (c ty : String)
    (tags rel : List String) (v : JsonValue SalientDecision)
    (emb : List ℝ) (imp : ℝ)
    (ex : StoredRecord) (ud : JsonValue UpdateDecision)
    (htriv : isTrivial c = false)
    (hsal : evaluateSalientMemory env c = .ok v)
    (hisSal : v.truthyField SalientDecision.isSalient = .ok true)
    (hemb : env.embed c = .ok emb)
    (himp : env.importanceResponse c = .ok imp)
    (hqok : env.queryOk = .ok ())
    (hprobe : queryStore s emb 1 salientFilter = [ex])
    (hsim : calculateCosineSimilarity emb ex.values > 0.8)
    (hud : evaluateMemoryUpdate env c ex.metadata.content = .ok ud)
    (hupd : ud.truthyField UpdateDecision.update = .ok true)
    (hus : ud.stringField UpdateDecision.updatedSummary ≠ "")
    (hupok : env.upsertOk = .ok ()) :
    ∃ s', addMemory env s c ty tags rel = .ok (s', 8) ∧
      s' = s.map (fun r =>
        if r.id = ex.id then
          { id := ex.id, values := emb, metadata :=
            { content := c, timestamp := env.now, type := "conversation",
              summary := ud.stringField UpdateDecision.updatedSummary,
              importance := imp,
              lastAccessed := env.now, version := 1, salient := some true,
              tags := none, relations := none } }
        else r) ∧
      s'.length = s.length := by
  refine ⟨_, addMemory_update_shape env s c ty tags rel v emb imp ex ud
    htriv hsal hisSal hemb himp hqok hprobe hsim hud hupd hus hupok,
    rfl, List.length_map _ _⟩

theorem conflict_update_in_place_witness :
    ∃ s', addMemory happyEnv [sampleRec] "User now goes by Alexandra"
        "conversation" [] [] = .ok (s', 8) ∧
      s' = [sampleRec].map (fun r =>
        if r.id = sampleRec.id then
          { id := sampleRec.id, values := [1], metadata :=
            { content := "User now goes by Alexandra", timestamp := happyEnv.now,
              type := "conversation", summary := "merged fact",
              importance := 1/2, lastAccessed := happyEnv.now, version := 1,
              salient := some true, tags := none, relations := none } }
        else r) ∧
      s'.length = [sampleRec].length :=
  conflict_update_in_place happyEnv [sampleRec] "User now goes by Alexandra"
    "conversation" [] [] (.obj ⟨true, "User's name is Alex"⟩) [1] (1/2) sampleRec
    (.obj ⟨true, "merged fact"⟩) (by decide) rfl rfl rfl rfl rfl rfl
    (by norm_num
      [show calculateCosineSimilarity [1] sampleRec.values = 1 from cosSim_single_one])
    rfl rfl (by decide) rfl

/-! ## C1: the at-most-one-per-fact invariant -/

/-- The at-most-one-per-fact invariant: every pair of distinct stored
records whose metadata has `salient = true` has cosine similarity at most
`0.8`. -/
def pairwiseBelow (s : Store) : Prop :=
  ∀ r₁ ∈ s, ∀ r₂ ∈ s,
    r₁.metadata.salient = some true → r₂.metadata.salient = some true →
    r₁.id ≠ r₂.id →
    calculateCosineSimilarity r₁.values r₂.values ≤ 0.8

theorem bySimilarity_total (v : List ℝ) (a b : StoredRecord) :
    bySimilarity v a b = true ∨ bySimilarity v b a = true := by
  unfold bySimilarity
  rcases le_total (calculateCosineSimilarity v b.values)
      (calculateCosineSimilarity v a.values) with h | h
  · left; exact decide_eq_true h
  · right; exact decide_eq_true h

theorem bySimilarity_trans (v : List ℝ) (a b c' : StoredRecord)
    (h₁ : bySimilarity v a b = true) (h₂ : bySimilarity v b c' = true) :
    bySimilarity v a c' = true := by
  unfold bySimilarity at h₁ h₂ ⊢
  exact decide_eq_true (le_trans (of_decide_eq_true h₂) (of_decide_eq_true h₁))

/-- A top-1 probe that returns no match means the store holds no
record passing the filter. -/
theorem queryStore_nil_empty {s : Store} {v : List ℝ}
    {f : StoredRecord → Bool} (hq : queryStore s v 1 f = []) :
    ∀ r ∈ s, f r = false := by
  intro r hr
  by_contra hcon
  have hfil : f r = true := by revert hcon; cases f r <;> simp
  have hmem : r ∈ sortByCmp (bySimilarity v) (s.filter f) :=
    (mem_sortByCmp _ _ _).mpr (List.mem_filter.mpr ⟨hr, hfil⟩)
  unfold queryStore at hq
  rcases List.take_eq_nil_iff.mp hq with h1 | h1
  · cases h1
  · rw [h1] at hmem
    cases hmem

/-- The single probe match dominates every filtered record in cosine
similarity to the query vector (the store's metric is cosine). -/
theorem queryStore_top_max {s : Store} {v : List ℝ} {f : StoredRecord → Bool}
    {h₀ : StoredRecord} {t : List StoredRecord}
    (hq : queryStore s v 1 f = h₀ :: t) :
    ∀ r ∈ s, f r = true →
      calculateCosineSimilarity v r.values ≤
        calculateCosineSimilarity v h₀.values := by
  intro r hr hfil
  unfold queryStore at hq
  obtain ⟨rest, hrest⟩ :
      ∃ rest, sortByCmp (bySimilarity v) (s.filter f) = h₀ :: rest := by
    cases hs : sortByCmp (bySimilarity v) (s.filter f) with
    | nil => rw [hs] at hq; cases hq
    | cons a as =>
      rw [hs] at hq
      simp only [List.take_succ_cons, List.take_zero, List.cons.injEq] at hq
      exact ⟨as, by rw [hq.1]⟩
  have hle := sortByCmp_head_le (bySimilarity v) (bySimilarity_total v)
    (fun a b c' => bySimilarity_trans v a b c') _ h₀ rest hrest r
    (List.mem_filter.mpr ⟨hr, hfil⟩)
  exact of_decide_eq_true hle

/-- Upserting a record whose similarity to every stored salient record is
at most `0.8` preserves the invariant. -/
theorem pairwiseBelow_upsert (s : Store) (rec : StoredRecord)
    (hinv : pairwiseBelow s)
    (hbound : ∀ r ∈ s, r.metadata.salient = some true →
      calculateCosineSimilarity rec.values r.values ≤ 0.8) :
    pairwiseBelow (upsert s rec) := by
  intro r₁ h₁ r₂ h₂ hs₁ hs₂ hne
  rcases mem_upsert h₁ with rfl | h₁'
  · rcases mem_upsert h₂ with rfl | h₂'
    · exact absurd rfl hne
    · exact hbound r₂ h₂' hs₂
  · rcases mem_upsert h₂ with rfl | h₂'
    · rw [calculateCosineSimilarity_comm]
      exact hbound r₁ h₁' hs₁
    · exact hinv r₁ h₁' r₂ h₂' hs₁ hs₂ hne

/-- A successful `addMemoryCreate` run upserts exactly one salient record
carrying the computed embedding under the fresh id. -/
theorem addMemoryCreate_ok_shape {env : Env} {s : Store} {c ty : String}
    {tags rel : List String} {d : JsonValue SalientDecision} {emb : List ℝ}
    {imp : ℝ}
    {s' : Store} {n : Nat}
    (h : addMemoryCreate env s c ty tags rel d emb imp = .ok (s', n)) :
    ∃ summary, s' = upsert s
      { id := env.freshId, values := emb, metadata :=
        { content := c, timestamp := env.now, type := ty,
          summary := summary, importance := imp, lastAccessed := env.now,
          version := 1, salient := some true, tags := some tags,
          relations := some rel } } := by
  unfold addMemoryCreate at h
  simp only [bind, Except.bind] at h
  cases htr : d.truthyField SalientDecision.isSalient with
  | error e => rw [htr] at h; cases h
  | ok b =>
    rw [htr] at h
    dsimp only at h
    cases b with
    | true =>
      simp only [if_true, bind, Except.bind, pure, Except.pure] at h
      cases hup : env.upsertOk with
      | error e => rw [hup] at h; cases h
      | ok u =>
        rw [hup] at h
        simp only [pure, Except.pure, Except.ok.injEq, Prod.mk.injEq] at h
        exact ⟨d.stringField SalientDecision.summary, h.1.symm⟩
    | false =>
      simp only [Bool.false_eq_true, if_false, bind, Except.bind] at h
      cases hsum : env.summaryResponse c with
      | error e => rw [hsum] at h; simp [Except.map] at h
      | ok sm =>
        rw [hsum] at h
        simp only [Except.map] at h
        cases hup : env.upsertOk with
        | error e => rw [hup] at h; cases h
        | ok u =>
          rw [hup] at h
          simp only [pure, Except.pure, Except.ok.injEq, Prod.mk.injEq] at h
          exact ⟨sm, h.1.symm⟩

theorem sumSquares_pair (a b : ℝ) : sumSquares [a, b] = a * a + b * b := by
  show a * a + (b * b + 0) = _
  ring

theorem dotProduct_pair (a b x y : ℝ) : dotProduct [a, b] [x, y] = a * x + b * y := by
  show a * x + (b * y + 0) = _
  ring

/-- Claim C1 as amended, confirmed:  A salient insertion that takes the
*create* path — the duplicate probe ran and every match it returned had
similarity at most `0.8` — preserves the at-most-one-per-fact invariant:
if every pair of stored salient records had cosine similarity at most
`0.8` before the call, the same holds after it.  (The conflict-update
path does not preserve the invariant, since the merged record's
regenerated embedding is compared against the single nearest neighbour
only; see the counterexample.) -/
theorem at_most_one_per_fact_create (env : Env) (s : Store) (c ty : String)
    (tags rel : List String) (d : JsonValue SalientDecision) (emb : List ℝ)
    (s' : Store) (n : Nat)
    (hinv : pairwiseBelow s)
    (hsal : evaluateSalientMemory env c = .ok d)
    (hisSal : d.truthyField SalientDecision.isSalient = .ok true)
    (hemb : env.embed c = .ok emb)
    (hprobe : ∀ r ∈ queryStore s emb 1 salientFilter,
      calculateCosineSimilarity emb r.values ≤ 0.8)
    (hrun : addMemory env s c ty tags rel = .ok (s', n))
    (hchange : s' ≠ s) :
    pairwiseBelow s' := by
  have hbound : ∀ r ∈ s, r.metadata.salient = some true →
      calculateCosineSimilarity emb r.values ≤ 0.8 := by
    intro r hr hsalr
    have hfil : salientFilter r = true := by simp [salientFilter, hsalr]
    cases hq2 : queryStore s emb 1 salientFilter with
    | nil =>
      rw [queryStore_nil_empty hq2 r hr] at hfil
      cases hfil
    | cons ex t =>
      exact le_trans (queryStore_top_max hq2 r hr hfil)
        (hprobe ex (by rw [hq2]; exact List.mem_cons_self _ _))
  unfold addMemory at hrun
  by_cases htriv : isTrivial c
  · rw [if_pos htriv] at hrun
    simp only [pure, Except.pure, Except.ok.injEq] at hrun
    exact absurd (congrArg Prod.fst hrun).symm hchange
  · simp only [htriv, Bool.false_eq_true, if_false, bind, Except.bind] at hrun
    rw [hsal] at hrun
    dsimp only at hrun
    rw [hisSal] at hrun
    dsimp only at hrun
    have hgate : (!true && ty != "important") = false := rfl
    simp only [hgate, Bool.false_eq_true, if_false] at hrun
    rw [hemb] at hrun
    dsimp only at hrun
    cases himp : env.importanceResponse c with
    | error e => rw [himp] at hrun; cases hrun
    | ok imp =>
      rw [himp] at hrun
      dsimp only at hrun
      simp only [if_true] at hrun
      cases hqok : env.queryOk with
      | error e => rw [hqok] at hrun; cases hrun
      | ok u =>
        rw [hqok] at hrun
        dsimp only at hrun
        cases hq2 : queryStore s emb 1 salientFilter with
        | nil =>
          rw [hq2] at hrun
          dsimp only at hrun
          cases hcr : addMemoryCreate env s c ty tags rel d emb imp with
          | error e => rw [hcr] at hrun; cases hrun
          | ok p =>
            rw [hcr] at hrun
            dsimp only at hrun
            simp only [pure, Except.pure, Except.ok.injEq, Prod.mk.injEq] at hrun
            obtain ⟨sm, hshape⟩ := addMemoryCreate_ok_shape hcr
            rw [← hrun.1, hshape]
            exact pairwiseBelow_upsert s _ hinv hbound
        | cons ex t =>
          rw [hq2] at hrun
          dsimp only at hrun
          rw [if_neg (not_lt.mpr
            (hprobe ex (by rw [hq2]; exact List.mem_cons_self _ _)))] at hrun
          cases hcr : addMemoryCreate env s c ty tags rel d emb imp with
          | error e => rw [hcr] at hrun; cases hrun
          | ok p =>
            rw [hcr] at hrun
            dsimp only at hrun
            simp only [pure, Except.pure, Except.ok.injEq, Prod.mk.injEq] at hrun
            obtain ⟨sm, hshape⟩ := addMemoryCreate_ok_shape hcr
            rw [← hrun.1, hshape]
            exact pairwiseBelow_upsert s _ hinv hbound

theorem at_most_one_per_fact_create_witness : pairwiseBelow [createdRec] :=
  at_most_one_per_fact_create happyEnv [] "My name is Alex" "conversation"
    [] [] (.obj ⟨true, "User's name is Alex"⟩) [1] [createdRec] 5
    (by intro r₁ h₁; cases h₁)
    rfl rfl rfl
    (by
      intro r hr
      rw [show queryStore ([] : Store) [1] 1 salientFilter = [] from rfl] at hr
      cases hr)
    rfl (by simp)

/-- Stored salient record embedded at the unit vector `(24/25, 7/25)`. -/
noncomputable def recN : StoredRecord :=
  { id := "n", values := [24/25, 7/25]
    metadata :=
      { content := "User's name is Alexandra", timestamp := 1,
        type := "conversation", summary := "name is Alexandra",
        importance := 1/2, lastAccessed := 1, version := 1,
        salient := some true, tags := none, relations := none } }

/-- Stored salient record embedded at the unit vector `(12/13, -5/13)`. -/
noncomputable def recM : StoredRecord :=
  { id := "m", values := [12/13, -5/13]
    metadata :=
      { content := "User's name is Alex", timestamp := 1,
        type := "conversation", summary := "name is Alex",
        importance := 1/2, lastAccessed := 1, version := 1,
        salient := some true, tags := none, relations := none } }

/-- What the update path turns `recN` into: its vector becomes the new
text's embedding `(1, 0)`. -/
noncomputable def updatedRecN : StoredRecord :=
  { id := "n", values := [1, 0]
    metadata :=
      { content := "Call me Alexandra from now on", timestamp := 200,
        type := "conversation", summary := "merged fact",
        importance := 1/2, lastAccessed := 200, version := 1,
        salient := some true, tags := none, relations := none } }

/-- Environment embedding every text at the unit vector `(1, 0)`. -/
noncomputable def conflictEnv : Env :=
  { happyEnv with embed := fun _ => .ok [1, 0] }

theorem sumSquares_vecN : sumSquares [(24/25 : ℝ), 7/25] = 1 := by
  rw [sumSquares_pair]; norm_num

theorem sumSquares_vecM : sumSquares [(12/13 : ℝ), -5/13] = 1 := by
  rw [sumSquares_pair]; norm_num

theorem sumSquares_vecE : sumSquares [(1 : ℝ), 0] = 1 := by
  rw [sumSquares_pair]; norm_num

theorem cosSim_E_recN : calculateCosineSimilarity [1, 0] recN.values = 24/25 := by
  show calculateCosineSimilarity [1, 0] [24/25, 7/25] = _
  rw [calculateCosineSimilarity_of_unit sumSquares_vecE sumSquares_vecN,
    dotProduct_pair]
  norm_num

theorem cosSim_E_recM : calculateCosineSimilarity [1, 0] recM.values = 12/13 := by
  show calculateCosineSimilarity [1, 0] [12/13, -5/13] = _
  rw [calculateCosineSimilarity_of_unit sumSquares_vecE sumSquares_vecM,
    dotProduct_pair]
  norm_num

theorem cosSim_recN_recM :
    calculateCosineSimilarity recN.values recM.values = 253/325 := by
  show calculateCosineSimilarity [24/25, 7/25] [12/13, -5/13] = _
  rw [calculateCosineSimilarity_of_unit sumSquares_vecN sumSquares_vecM,
    dotProduct_pair]
  norm_num

/-- The probe on the concrete two-record store returns `recN`, its true
nearest salient neighbour (`24/25 > 12/13`). -/
theorem conflict_probe :
    queryStore [recN, recM] [1, 0] 1 salientFilter = [recN] := by
  have hle : bySimilarity [1, 0] recN recM = true := by
    unfold bySimilarity
    rw [cosSim_E_recN, cosSim_E_recM]
    exact decide_eq_true (by norm_num)
  show ((sortByCmp (bySimilarity [1, 0])
      (List.filter salientFilter [recN, recM])).take 1) = [recN]
  have hfil : List.filter salientFilter [recN, recM] = [recN, recM] := rfl
  rw [hfil]
  show ((insertSorted (bySimilarity [1, 0]) recN [recM]).take 1) = [recN]
  show (((if bySimilarity [1, 0] recN recM then recN :: [recM]
      else recM :: insertSorted (bySimilarity [1, 0]) recN [])).take 1) = [recN]
  rw [if_pos hle]
  rfl

/-- Claim C1, counterexample:  A store holding the salient records `recN`
and `recM` satisfies the invariant (`sim = 253/325 ≤ 0.8`); one
`addMemory` call — in which the duplicate probe *did* run and found
`recN` (`sim = 24/25 > 0.8`) — takes the update path and rewrites `recN`'s
vector to the new embedding `(1, 0)`, which has similarity
`12/13 > 0.8` to the untouched `recM`: the resulting store holds two
salient records whose cosine similarity exceeds the threshold, refuting
the claimed invariant. -/
theorem at_most_one_per_fact_counterexample :
    pairwiseBelow [recN, recM] ∧
    addMemory conflictEnv [recN, recM] "Call me Alexandra from now on"
        "conversation" [] [] = .ok ([updatedRecN, recM], 8) ∧
    updatedRecN.metadata.salient = some true ∧
    recM.metadata.salient = some true ∧
    updatedRecN.id ≠ recM.id ∧
    calculateCosineSimilarity updatedRecN.values recM.values > 0.8 ∧
    ¬ pairwiseBelow [updatedRecN, recM] := by
  have hsimNM : calculateCosineSimilarity updatedRecN.values recM.values =
      12/13 := cosSim_E_recM
  refine ⟨?_, ?_, rfl, rfl, by decide, ?_, ?_⟩
  · intro r₁ h₁ r₂ h₂ hs₁ hs₂ hne
    simp only [List.mem_cons, List.not_mem_nil, or_false] at h₁ h₂
    rcases h₁ with rfl | rfl <;> rcases h₂ with rfl | rfl
    · exact absurd rfl hne
    · rw [cosSim_recN_recM]; norm_num
    · rw [calculateCosineSimilarity_comm, cosSim_recN_recM]; norm_num
    · exact absurd rfl hne
  · have h := addMemory_update_shape conflictEnv [recN, recM]
      "Call me Alexandra from now on" "conversation" [] []
      (.obj ⟨true, "User's name is Alex"⟩) [1, 0] (1/2) recN
      (.obj ⟨true, "merged fact"⟩)
      (by decide) rfl rfl rfl rfl rfl conflict_probe
      (by rw [cosSim_E_recN]; norm_num) rfl rfl (by decide) rfl
    rw [h]
    rfl
  · rw [hsimNM]; norm_num
  · intro hp
    have := hp updatedRecN (List.mem_cons_self _ _) recM (by simp) rfl rfl
      (by decide)
    rw [hsimNM] at this
    norm_num at this

end PeterAI
